import Mathlib

/- Shallow embedding of the Notion_HR record-reconciliation scripts.

   Sources modelled:
   - src/sync.js                      (primary reconciler, CommonJS)
   - src/unnamed/part_001 (JS half)   (withRetry, normalizeCivilId, buildPendingStatusUpdate, buildEmployeeIndex)
   - src/unnamed/part_002 (both JS halves) (syncLeaveRequests pending-only path, detectLeaveSchema)
   - src/unnamed/part_003             (NotionSync class: normalizeIdNumber, apiCallWithRetry)

   Text is embedded as `List Char`; JavaScript scalars as `JSValue`.
   Machine floats do not occur on the verified paths; JS numbers that reach
   the normalizers are modelled as integers (their String() form is the
   decimal representation, which is all the code inspects). -/

namespace NotionHR

/-- ASCII western digit, the exact character class of JS `\d`. -/
def isWDigit (c : Char) : Bool := 48 ≤ c.toNat && c.toNat ≤ 57

/-- JS whitespace (the characters relevant to `String.prototype.trim` and `\s`):
    tab, LF, VT, FF, CR, space, NBSP, LS, PS, BOM. -/
def isJsWs (c : Char) : Bool :=
  c.toNat = 9 || c.toNat = 10 || c.toNat = 11 || c.toNat = 12 || c.toNat = 13 ||
  c.toNat = 32 || c.toNat = 160 || c.toNat = 0x2028 || c.toNat = 0x2029 || c.toNat = 0xFEFF

/-- Left trim, as in `String.prototype.trim`. -/
def ltrim (s : List Char) : List Char := s.dropWhile isJsWs

/-- Right trim, as in `String.prototype.trim`. -/
def rtrim (s : List Char) : List Char := (s.reverse.dropWhile isJsWs).reverse

/-- JS `trim()`: drop whitespace on both ends. -/
def jsTrim (s : List Char) : List Char := rtrim (ltrim s)

/-- Apply a ten-entry script→Western digit table to one character
    (the net effect of the per-digit global `replace` loops in the sources). -/
def applyMap (m : List (Char × Char)) (c : Char) : Char :=
  match m.find? (fun p => p.1 = c) with
  | some p => p.2
  | none => c

/-- Eastern-Arabic (Arabic-Indic) digit table `٠١٢٣٤٥٦٧٨٩` (U+0660–U+0669). -/
def arMap : List (Char × Char) :=
  [('٠', '0'), ('١', '1'), ('٢', '2'), ('٣', '3'), ('٤', '4'),
   ('٥', '5'), ('٦', '6'), ('٧', '7'), ('٨', '8'), ('٩', '9')]

/-- Persian / Extended Arabic-Indic digit table `۰۱۲۳۴۵۶۷۸۹` (U+06F0–U+06F9);
    the table sync.js calls `hindiNumbers`. -/
def faMap : List (Char × Char) :=
  [('۰', '0'), ('۱', '1'), ('۲', '2'), ('۳', '3'), ('۴', '4'),
   ('۵', '5'), ('۶', '6'), ('۷', '7'), ('۸', '8'), ('۹', '9')]

/-- Devanagari digit table `०१२३४५६७८९` (U+0966–U+096F);
    the table part_003 calls `hindiNumerals`. -/
def devMap : List (Char × Char) :=
  [('०', '0'), ('१', '1'), ('२', '2'), ('३', '3'), ('४', '4'),
   ('५', '5'), ('६', '6'), ('७', '7'), ('८', '8'), ('९', '9')]

/-- JavaScript scalar values reaching the normalizers: string, number, or null/undefined. -/
inductive JSValue
  | vStr (s : List Char)
  | vNum (n : Int)
  | vNull
  deriving DecidableEq

/-- JS `String(v)` on the scalars above. -/
def jsToString : JSValue → List Char
  | .vStr s => s
  | .vNum n => (toString n).data
  | .vNull => "null".data

/-- JS truthiness of the scalars above (`""`, `0`, `null` are falsy). -/
def jsTruthy : JSValue → Bool
  | .vStr s => !s.isEmpty
  | .vNum n => n ≠ 0
  | .vNull => false

/-- Digit-script conversion of sync.js `normalizeNumber`: the Arabic-Indic
    replace loop, then the Persian replace loop. -/
def convSync (c : Char) : Char := applyMap faMap (applyMap arMap c)

/-- sync.js `normalizeNumber`: falsy input gives `''`; otherwise convert
    Arabic-Indic and Persian digits to Western digits and trim.
    Non-digit characters are NOT removed. -/
def normalizeNumber (v : JSValue) : List Char :=
  if !jsTruthy v then [] else jsTrim ((jsToString v).map convSync)

/-- part_001 `normalizeCivilId`: null/undefined gives null; otherwise convert
    Arabic-Indic digits, strip every non-`\d` character, trim; empty gives null. -/
def normalizeCivilId (v : JSValue) : Option (List Char) :=
  match v with
  | .vNull => none
  | _ =>
    if (jsTrim (((jsToString v).map (applyMap arMap)).filter isWDigit)).isEmpty then none
    else some (jsTrim (((jsToString v).map (applyMap arMap)).filter isWDigit))

/-- Digit-script conversion of part_003 `normalizeIdNumber`: the Arabic-Indic
    replace loop, then the Devanagari replace loop. -/
def convPart3 (c : Char) : Char := applyMap devMap (applyMap arMap c)

/-- part_003 `NotionSync.normalizeIdNumber`: falsy non-zero input gives null;
    otherwise `String(v).trim()`, convert Arabic-Indic and Devanagari digits,
    strip every non-`\d` character; empty gives null. -/
def normalizeIdNumber (v : JSValue) : Option (List Char) :=
  if !jsTruthy v && v ≠ .vNum 0 then none
  else if (jsTrim (jsToString v)).isEmpty then none
  else if (((jsTrim (jsToString v)).map convPart3).filter isWDigit).isEmpty then none
  else some (((jsTrim (jsToString v)).map convPart3).filter isWDigit)

/-- Reinject an optional canonical key as the JS value a second normalization
    call would receive (`null` for absence). -/
def optToVal : Option (List Char) → JSValue
  | none => .vNull
  | some s => .vStr s

end NotionHR

namespace NotionHR

/- ## Groundwork lemmas about trim and the digit tables -/

theorem dropWhile_idem (p : Char → Bool) (l : List Char) :
    (l.dropWhile p).dropWhile p = l.dropWhile p := by
  induction l with
  | nil => rfl
  | cons a t ih =>
    by_cases h : p a = true
    · simpa [List.dropWhile, h] using ih
    · simp [List.dropWhile, h]

theorem dropWhile_eq_self_of_head (p : Char → Bool) (a : Char) (t : List Char)
    (h : p a = false) : (a :: t).dropWhile p = a :: t := by
  simp [List.dropWhile, h]

theorem head_not_p_of_dropWhile_eq_self (p : Char → Bool) (a : Char) (t : List Char)
    (h : (a :: t).dropWhile p = a :: t) : p a = false := by
  by_contra hc
  have ha : p a = true := by simpa using hc
  have h1 : (a :: t).dropWhile p = t.dropWhile p := by simp [List.dropWhile, ha]
  have hlen : (t.dropWhile p).length ≤ t.length := (List.dropWhile_sublist p (l := t)).length_le
  rw [h] at h1
  have : (a :: t).length = (t.dropWhile p).length := by rw [← h1]
  simp at this
  omega

theorem dropWhile_app_eq_self (p : Char → Bool) (m r : List Char)
    (h : (m ++ r).dropWhile p = m ++ r) : m.dropWhile p = m := by
  cases m with
  | nil => rfl
  | cons a t =>
    have ha : p a = false :=
      head_not_p_of_dropWhile_eq_self p a (t ++ r) (by simpa using h)
    exact dropWhile_eq_self_of_head p a t ha

theorem ltrim_idem (s : List Char) : ltrim (ltrim s) = ltrim s :=
  dropWhile_idem isJsWs s

theorem rtrim_idem (s : List Char) : rtrim (rtrim s) = rtrim s := by
  simp [rtrim, dropWhile_idem]

/-- Recompose `s` from `rtrim s` and its dropped whitespace suffix. -/
theorem rtrim_append (s : List Char) : ∃ d, rtrim s ++ d = s := by
  obtain ⟨t, ht⟩ := List.dropWhile_suffix (l := s.reverse) isJsWs
  refine ⟨t.reverse, ?_⟩
  have : (t ++ s.reverse.dropWhile isJsWs).reverse = s := by rw [ht]; simp
  simpa [rtrim, List.reverse_append] using this

theorem ltrim_rtrim_of_ltrimmed (s : List Char) (h : ltrim s = s) :
    ltrim (rtrim s) = rtrim s := by
  obtain ⟨d, hd⟩ := rtrim_append s
  have := dropWhile_app_eq_self isJsWs (rtrim s) d (by rw [hd]; exact h)
  simpa [ltrim] using this

theorem jsTrim_idem (s : List Char) : jsTrim (jsTrim s) = jsTrim s := by
  unfold jsTrim
  rw [ltrim_rtrim_of_ltrimmed (ltrim s) (ltrim_idem s), rtrim_idem]

theorem mem_of_mem_ltrim {c : Char} {s : List Char} (h : c ∈ ltrim s) : c ∈ s :=
  (List.dropWhile_sublist isJsWs).subset h

theorem mem_of_mem_rtrim {c : Char} {s : List Char} (h : c ∈ rtrim s) : c ∈ s := by
  have h1 : c ∈ s.reverse.dropWhile isJsWs := by simpa [rtrim] using h
  have := (List.dropWhile_sublist isJsWs (l := s.reverse)).subset h1
  simpa using this

theorem mem_of_mem_jsTrim {c : Char} {s : List Char} (h : c ∈ jsTrim s) : c ∈ s :=
  mem_of_mem_ltrim (mem_of_mem_rtrim h)

/-- A digit table is standard when every source character is a non-Western
    digit and every target character is a Western digit. -/
def goodMap (m : List (Char × Char)) : Prop :=
  ∀ p ∈ m, isWDigit p.1 = false ∧ isWDigit p.2 = true

theorem arMap_good : goodMap arMap := by unfold goodMap; decide
theorem faMap_good : goodMap faMap := by unfold goodMap; decide
theorem devMap_good : goodMap devMap := by unfold goodMap; decide

theorem applyMap_eq_or_digit {m : List (Char × Char)} (hm : goodMap m) (c : Char) :
    applyMap m c = c ∨ isWDigit (applyMap m c) = true := by
  unfold applyMap
  cases hf : m.find? (fun p => p.1 = c) with
  | none => exact Or.inl rfl
  | some p => exact Or.inr (hm p (List.mem_of_find?_eq_some hf)).2

theorem applyMap_fixes_digit {m : List (Char × Char)} (hm : goodMap m) (c : Char)
    (hc : isWDigit c = true) : applyMap m c = c := by
  unfold applyMap
  have : m.find? (fun p => p.1 = c) = none := by
    apply List.find?_eq_none.mpr
    intro p hp
    simp only [decide_eq_true_eq]
    intro he
    have := (hm p hp).1
    rw [he, hc] at this
    exact absurd this (by simp)
  simp [this]

theorem convSync_eq_or_digit (c : Char) :
    convSync c = c ∨ isWDigit (convSync c) = true := by
  unfold convSync
  rcases applyMap_eq_or_digit arMap_good c with h | h
  · rw [h]; exact applyMap_eq_or_digit faMap_good c
  · rw [applyMap_fixes_digit faMap_good _ h]; exact Or.inr h

theorem convSync_fixes_digit (c : Char) (hc : isWDigit c = true) : convSync c = c := by
  unfold convSync
  rw [applyMap_fixes_digit arMap_good _ hc, applyMap_fixes_digit faMap_good _ hc]

theorem convSync_idem (c : Char) : convSync (convSync c) = convSync c := by
  rcases convSync_eq_or_digit c with h | h
  · rw [h, h]
  · exact convSync_fixes_digit _ h

theorem convPart3_eq_or_digit (c : Char) :
    convPart3 c = c ∨ isWDigit (convPart3 c) = true := by
  unfold convPart3
  rcases applyMap_eq_or_digit arMap_good c with h | h
  · rw [h]; exact applyMap_eq_or_digit devMap_good c
  · rw [applyMap_fixes_digit devMap_good _ h]; exact Or.inr h

theorem convPart3_fixes_digit (c : Char) (hc : isWDigit c = true) : convPart3 c = c := by
  unfold convPart3
  rw [applyMap_fixes_digit arMap_good _ hc, applyMap_fixes_digit devMap_good _ hc]

theorem map_eq_self_of_fixes {f : Char → Char} :
    ∀ l : List Char, (∀ c ∈ l, f c = c) → l.map f = l := by
  intro l h
  induction l with
  | nil => rfl
  | cons a t ih =>
    simp only [List.map_cons]
    rw [h a (by simp), ih (fun c hc => h c (by simp [hc]))]

theorem dropWhile_eq_self_of_all (p : Char → Bool) (l : List Char)
    (h : ∀ c ∈ l, p c = false) : l.dropWhile p = l := by
  cases l with
  | nil => rfl
  | cons a t => exact dropWhile_eq_self_of_head p a t (h a (by simp))

theorem jsTrim_eq_self_of_no_ws (s : List Char)
    (h : ∀ c ∈ s, isJsWs c = false) : jsTrim s = s := by
  have hl : ltrim s = s := dropWhile_eq_self_of_all isJsWs s h
  have hr : rtrim s = s := by
    unfold rtrim
    rw [dropWhile_eq_self_of_all isJsWs s.reverse (fun c hc => h c (by simpa using hc))]
    simp
  unfold jsTrim
  rw [hl, hr]

theorem isWDigit_not_ws (c : Char) (h : isWDigit c = true) : isJsWs c = false := by
  simp only [isWDigit, Bool.and_eq_true, decide_eq_true_eq] at h
  simp only [isJsWs, Bool.or_eq_false_iff, decide_eq_false_iff_not]
  omega

/- ## Normalizer idempotence (claim C9) and the concrete key table (claim C2) -/

theorem normalizeNumber_truthy_eq (x : JSValue) (h : jsTruthy x = true) :
    normalizeNumber x = jsTrim ((jsToString x).map convSync) := by
  simp [normalizeNumber, h]

theorem convSync_fixes_result {x : JSValue} {c : Char}
    (h : c ∈ normalizeNumber x) : convSync c = c := by
  by_cases ht : jsTruthy x = true
  · rw [normalizeNumber_truthy_eq x ht] at h
    have h1 : c ∈ (jsToString x).map convSync := mem_of_mem_jsTrim h
    obtain ⟨b, _, hb⟩ := List.mem_map.mp h1
    rw [← hb]
    exact convSync_idem b
  · have hf : jsTruthy x = false := by simpa using ht
    simp [normalizeNumber, hf] at h

theorem normalizeIdNumber_some {x : JSValue} {s : List Char}
    (h : normalizeIdNumber x = some s) :
    s ≠ [] ∧ ∀ c ∈ s, isWDigit c = true := by
  unfold normalizeIdNumber at h
  split at h
  · exact absurd h (by simp)
  · split at h
    · exact absurd h (by simp)
    · split at h
      · exact absurd h (by simp)
      · rename_i hne
        obtain rfl : _ = s := Option.some.inj h
        refine ⟨by simpa [List.isEmpty_iff] using hne, ?_⟩
        intro c hc
        exact List.of_mem_filter hc

/-- C9: the identifier normalizers are idempotent — re-normalizing the result
    of `normalizeNumber` (sync.js) or `normalizeIdNumber` (part_003,
    `NotionSync.normalizeIdNumber`) yields the same value, for every
    representable input (string, number, or null/absent). -/
theorem C9_normalizer_idempotent (x : JSValue) :
    normalizeNumber (.vStr (normalizeNumber x)) = normalizeNumber x ∧
    normalizeIdNumber (optToVal (normalizeIdNumber x)) = normalizeIdNumber x := by
  constructor
  · by_cases he : normalizeNumber x = []
    · rw [he]
      simp [normalizeNumber, jsTruthy]
    · have ht : jsTruthy (JSValue.vStr (normalizeNumber x)) = true := by
        simpa [jsTruthy, List.isEmpty_iff] using he
      rw [normalizeNumber_truthy_eq _ ht]
      have hmap : (normalizeNumber x).map convSync = normalizeNumber x :=
        map_eq_self_of_fixes _ (fun c hc => convSync_fixes_result hc)
      simp only [jsToString]
      rw [hmap]
      by_cases htx : jsTruthy x = true
      · rw [normalizeNumber_truthy_eq x htx, jsTrim_idem]
      · exfalso
        apply he
        have hf : jsTruthy x = false := by simpa using htx
        simp [normalizeNumber, hf]

  · cases hr : normalizeIdNumber x with
    | none => simp [optToVal, normalizeIdNumber, jsTruthy]
    | some s =>
      obtain ⟨hne, hdig⟩ := normalizeIdNumber_some hr
      have hempty : s.isEmpty = false := by simpa [List.isEmpty_iff] using hne
      have htrim : jsTrim s = s :=
        jsTrim_eq_self_of_no_ws s (fun c hc => isWDigit_not_ws c (hdig c hc))
      have hmap : s.map convPart3 = s :=
        map_eq_self_of_fixes s (fun c hc => convPart3_fixes_digit c (hdig c hc))
      have hfil : s.filter isWDigit = s := List.filter_eq_self.mpr (by
        intro c hc; exact hdig c hc)
      simp only [optToVal]
      unfold normalizeIdNumber
      simp only [jsTruthy, jsToString, hempty]
      rw [htrim]
      simp only [hempty]
      rw [hmap, hfil]
      simp [hempty]

/-- Witness for C9 at the Eastern-Arabic key "٠١٢٣". -/
theorem C9_normalizer_idempotent_witness :
    normalizeNumber (.vStr (normalizeNumber (.vStr "٠١٢٣".data))) =
      normalizeNumber (.vStr "٠١٢٣".data) ∧
    normalizeIdNumber (optToVal (normalizeIdNumber (.vStr "٠١٢٣".data))) =
      normalizeIdNumber (.vStr "٠١٢٣".data) :=
  C9_normalizer_idempotent (.vStr "٠١٢٣".data)

/-- C2 counterexample: no single identifier normalizer in the repository
    satisfies the whole claim. sync.js `normalizeNumber` maps the all-letter
    string "abc" to "abc" (a non-empty key), not to Absent, because it never
    strips non-digit characters; and part_001 `normalizeCivilId` maps the
    Persian-script string "۰۱۲۳" to Absent, not to "0123", because its table
    covers only Eastern-Arabic digits. -/
theorem C2_counterexample :
    normalizeNumber (.vStr "abc".data) = "abc".data ∧ "abc".data ≠ ([] : List Char) ∧
    normalizeCivilId (.vStr "۰۱۲۳".data) = none := by
  refine ⟨by decide, by decide, by decide⟩

/-- C2 amended: sync.js `normalizeNumber` maps "٠١٢٣", "۰۱۲۳" and "0123" to the
    canonical key "0123" and maps null and "" to the absent key "", but maps
    "abc" to "abc" (non-digits are not stripped); the part_001 variant
    `normalizeCivilId` maps null, "" and "abc" to Absent and maps "٠١٢٣" and
    "0123" to "0123", but maps the Persian string "۰۱۲۳" to Absent. -/
theorem C2_amended :
    normalizeNumber (.vStr "٠١٢٣".data) = "0123".data ∧
    normalizeNumber (.vStr "۰۱۲۳".data) = "0123".data ∧
    normalizeNumber (.vStr "0123".data) = "0123".data ∧
    normalizeNumber .vNull = [] ∧
    normalizeNumber (.vStr "".data) = [] ∧
    normalizeNumber (.vStr "abc".data) = "abc".data ∧
    normalizeCivilId .vNull = none ∧
    normalizeCivilId (.vStr "".data) = none ∧
    normalizeCivilId (.vStr "abc".data) = none ∧
    normalizeCivilId (.vStr "٠١٢٣".data) = some "0123".data ∧
    normalizeCivilId (.vStr "0123".data) = some "0123".data ∧
    normalizeCivilId (.vStr "۰۱۲۳".data) = none := by
  refine ⟨by decide, by decide, by decide, by decide, by decide, by decide,
    by decide, by decide, by decide, by decide, by decide, by decide⟩

/- ## Notion page property model -/

/-- A formula property value: `prop.formula` is tagged `string` or `number`. -/
inductive FormulaVal
  | fstr (s : Option (List Char))
  | fnum (n : Option Int)
  deriving DecidableEq

/-- One element of a rollup array (only the tags the sources inspect). -/
inductive RollupItem
  | rTitle (runs : List (List Char))
  | rRich (runs : List (List Char))
  | rNum (n : Option Int)
  | rOther
  deriving DecidableEq

/-- A rollup property value: an array or a single numeric summary. -/
inductive RollupVal
  | rArray (items : List RollupItem)
  | rNumber (n : Option Int)
  | rOtherKind
  deriving DecidableEq

/-- A typed Notion page property value. Text-bearing kinds carry their list of
    plain-text runs; select/status carry the chosen option name (or null). -/
inductive PropVal
  | titleP (runs : List (List Char))
  | richTextP (runs : List (List Char))
  | numberP (n : Option Int)
  | phoneP (s : Option (List Char))
  | formulaP (f : FormulaVal)
  | selectP (name : Option (List Char))
  | statusP (name : Option (List Char))
  | relationP (ids : List String)
  | rollupP (r : RollupVal)
  | otherP
  deriving DecidableEq

/-- A page's property bag: name → value, in object insertion order
    (JS object keys are unique). -/
abbrev Props := List (String × PropVal)

/-- JS `properties[name]`: first binding, `undefined` when missing. -/
def lookupProp (props : Props) (name : String) : Option PropVal :=
  (props.find? (fun p => p.1 = name)).map (·.2)

/-- JS `String(n)` for an integer number. -/
def intToChars (n : Int) : List Char := (toString n).data

/-- JS `.map(t => t.plain_text).join('')`. -/
def joinRuns (runs : List (List Char)) : List Char := runs.flatten

/-- JS `.map(t => t.plain_text).join(' ')`. -/
def joinRunsSp (runs : List (List Char)) : List Char :=
  (runs.intersperse [' ']).flatten

/- ## sync.js extractIdNumber -/

/-- The candidate identifier field names tried by sync.js `extractIdNumber`. -/
def possibleFields : List String :=
  ["رقم الهوية", "رقم_الهوية", "ID Number", "ID", "الرقم"]

/-- One iteration of the candidate loop of `extractIdNumber` on a present
    property. `none` means the loop falls through to the next candidate;
    `some r` means the function returns `r` (`r = none` is a JS `null` return). -/
def candStep : PropVal → Option (Option (List Char))
  | .numberP n =>
    some (match n with
          | some m => if m ≠ 0 then some (intToChars m) else none
          | none => none)
  | .titleP runs => if runs.isEmpty then none else some (some (jsTrim (joinRuns runs)))
  | .richTextP runs => if runs.isEmpty then none else some (some (jsTrim (joinRuns runs)))
  | .formulaP (.fstr s) => some s
  | .formulaP (.fnum (some m)) => some (some (intToChars m))
  | .formulaP (.fnum none) => some (some "null".data)
  | _ => none

/-- The candidate loop of `extractIdNumber`: first candidate field that is
    present and fires a branch determines the returned value. -/
def candidateLoop (props : Props) : Option (Option (List Char)) :=
  possibleFields.findSome? (fun name =>
    match lookupProp props name with
    | some p => candStep p
    | none => none)

/-- Leftmost greedy match of the JS regex `/\d{9,12}/`. -/
def digitRun912 : List Char → Option (List Char)
  | [] => none
  | c :: rest =>
    if 9 ≤ ((c :: rest).takeWhile isWDigit).length then
      some (((c :: rest).takeWhile isWDigit).take 12)
    else digitRun912 rest

/-- One property of the backup scan of `extractIdNumber`: a 9–12 digit run in
    a non-empty rich_text, a truthy number, or a non-empty title. -/
def scanStep : PropVal → Option (List Char)
  | .richTextP runs => if runs.isEmpty then none else digitRun912 (joinRunsSp runs)
  | .numberP (some n) => if n ≠ 0 then digitRun912 (intToChars n) else none
  | .titleP runs => if runs.isEmpty then none else digitRun912 (joinRunsSp runs)
  | _ => none

/-- The backup scan of `extractIdNumber` over `Object.values(properties)`. -/
def fallbackScan (props : Props) : Option (List Char) :=
  (props.map (·.2)).findSome? scanStep

/-- sync.js `extractIdNumber`: candidate fields first; if the loop falls
    through every candidate, the backup 9–12 digit scan; else null. -/
def extractIdNumber (props : Props) : Option (List Char) :=
  match candidateLoop props with
  | some r => r
  | none => fallbackScan props

theorem takeWhile_all (p : Char → Bool) :
    ∀ l : List Char, ∀ c ∈ l.takeWhile p, p c = true := by
  intro l
  induction l with
  | nil => intro c hc; simp [List.takeWhile] at hc
  | cons a t ih =>
    intro c hc
    by_cases hp : p a = true
    · rw [List.takeWhile_cons, if_pos hp] at hc
      cases hc with
      | head => exact hp
      | tail _ h => exact ih c h
    · rw [List.takeWhile_cons, if_neg hp] at hc
      simp at hc

theorem digitRun912_spec :
    ∀ l s, digitRun912 l = some s →
      9 ≤ s.length ∧ s.length ≤ 12 ∧ ∀ c ∈ s, isWDigit c = true := by
  intro l
  induction l with
  | nil => intro s h; simp [digitRun912] at h
  | cons a t ih =>
    intro s h
    unfold digitRun912 at h
    split at h
    · rename_i hlen
      obtain rfl : _ = s := Option.some.inj h
      refine ⟨?_, ?_, ?_⟩
      · rw [List.length_take]; omega
      · rw [List.length_take]; omega
      · intro c hc
        exact takeWhile_all isWDigit (a :: t) c (List.mem_of_mem_take hc)
    · exact ih s h

/-- The concrete record refuting claim C10: the first candidate field is
    present but is an empty number property, and another property holds a
    nine-digit western run. -/
def c10Props : Props :=
  [("رقم الهوية", .numberP none), ("ملاحظات", .richTextP ["123456789".data])]

/-- C10 counterexample: on `c10Props` none of the named candidate fields
    yields a value (the candidate loop returns JS null from the empty number
    field), and a 9-digit western run is present in a rich_text property, yet
    `extractIdNumber` returns null — the backup scan is never reached, because
    a present number-typed candidate returns immediately even when empty. -/
theorem C10_counterexample :
    candidateLoop c10Props = some none ∧
    fallbackScan c10Props = some "123456789".data ∧
    extractIdNumber c10Props = none := by
  refine ⟨by decide, by decide, by decide⟩

/-- C10 amended: the backup scan runs exactly when the candidate loop falls
    through every candidate field without returning; a present candidate of
    number or formula kind (or with non-empty title/rich_text runs) returns
    immediately — possibly a null/empty value — and skips the scan. When the
    scan does run, it returns the leftmost run of 9 to 12 consecutive Western
    digits over the record's properties, matched before any numeral-script
    conversion (an Eastern-Arabic digit run is not found), else null. -/
theorem C10_amended (props : Props) :
    (∀ r, candidateLoop props = some r → extractIdNumber props = r) ∧
    (candidateLoop props = none → extractIdNumber props = fallbackScan props) ∧
    (∀ s, fallbackScan props = some s →
      9 ≤ s.length ∧ s.length ≤ 12 ∧ ∀ c ∈ s, isWDigit c = true) ∧
    scanStep (.richTextP ["٠١٢٣٤٥٦٧٨٩".data]) = none := by
  refine ⟨?_, ?_, ?_, by decide⟩
  · intro r h; simp [extractIdNumber, h]
  · intro h; simp [extractIdNumber, h]
  · intro s h
    obtain ⟨v, _, hv⟩ := List.exists_of_findSome?_eq_some h
    cases v with
    | richTextP runs =>
      simp only [scanStep] at hv
      split at hv
      · exact absurd hv (by simp)
      · exact digitRun912_spec _ s hv
    | numberP n =>
      cases n with
      | none => simp [scanStep] at hv
      | some m =>
        simp only [scanStep] at hv
        split at hv
        · exact digitRun912_spec _ s hv
        · exact absurd hv (by simp)
    | titleP runs =>
      simp only [scanStep] at hv
      split at hv
      · exact absurd hv (by simp)
      · exact digitRun912_spec _ s hv
    | phoneP s2 => simp [scanStep] at hv
    | formulaP f => simp [scanStep] at hv
    | selectP nm => simp [scanStep] at hv
    | statusP nm => simp [scanStep] at hv
    | relationP ids => simp [scanStep] at hv
    | rollupP r => simp [scanStep] at hv
    | otherP => simp [scanStep] at hv

/-- Witness for C10_amended at the concrete record of the backup-scan shape. -/
theorem C10_amended_witness :
    extractIdNumber [("ملاحظات", PropVal.richTextP ["123456789".data])] =
      some "123456789".data ∧
    9 ≤ ("123456789".data).length := by
  have h := C10_amended [("ملاحظات", PropVal.richTextP ["123456789".data])]
  refine ⟨?_, by decide⟩
  rw [h.2.1 (by decide)]
  decide

/- ## Schema model and field-role detection (sync.js) -/

/-- Status/select kind tag. -/
inductive SKind
  | status
  | select
  deriving DecidableEq

/-- One option of a select/status field as the sources read it:
    `o.name`, the optional `o.status.group`, and the optional `o.group`. -/
structure SOption where
  name : List Char
  statusGroup : Option String
  group : Option String
  deriving DecidableEq

/-- A field descriptor from `databases.retrieve`: kind plus the data the
    detectors read (relation target database, status/select options). -/
inductive FieldDef
  | fdRelation (targetDb : Option String)
  | fdStatus (options : List SOption)
  | fdSelect (options : List SOption)
  | fdOther
  deriving DecidableEq

/-- A database schema: field name → descriptor, in object insertion order. -/
abbrev Schema := List (String × FieldDef)

/-- First relation field whose declared target is the employees database
    (first loop of sync.js `findEmployeeRelationPropName`). -/
def findRelExact (empDb : String) : Schema → Option String
  | [] => none
  | (n, .fdRelation t) :: rest =>
    if t = some empDb then some n else findRelExact empDb rest
  | _ :: rest => findRelExact empDb rest

/-- First relation field of any target (second loop of
    sync.js `findEmployeeRelationPropName`). -/
def findRelAny : Schema → Option String
  | [] => none
  | (n, .fdRelation _) :: _ => some n
  | _ :: rest => findRelAny rest

/-- sync.js `findEmployeeRelationPropName`: exact-target relation first,
    then any relation, else null. -/
def findEmployeeRelationPropName (empDb : String) (schema : Schema) : Option String :=
  match findRelExact empDb schema with
  | some n => some n
  | none => findRelAny schema

/-- The detected status field of sync.js `findStatusProp`. -/
structure StatusProp where
  name : String
  kind : SKind
  options : List SOption
  deriving DecidableEq

/-- First field of kind status (first loop of sync.js `findStatusProp`). -/
def findStatusFirst : Schema → Option StatusProp
  | [] => none
  | (n, .fdStatus opts) :: _ => some ⟨n, .status, opts⟩
  | _ :: rest => findStatusFirst rest

/-- First field of kind select (second loop of sync.js `findStatusProp`). -/
def findSelectFirst : Schema → Option StatusProp
  | [] => none
  | (n, .fdSelect opts) :: _ => some ⟨n, .select, opts⟩
  | _ :: rest => findSelectFirst rest

/-- sync.js `findStatusProp`: prefer status, then select, else null. -/
def findStatusProp (schema : Schema) : Option StatusProp :=
  match findStatusFirst schema with
  | some sp => some sp
  | none => findSelectFirst schema

/- ## Pending-status selection (sync.js pickPendingName) -/

/-- ASCII lowering, the fragment of JS `toLowerCase` relevant to the
    option labels in play (Arabic letters are unaffected by either). -/
def jsToLower (c : Char) : Char :=
  if 65 ≤ c.toNat ∧ c.toNat ≤ 90 then Char.ofNat (c.toNat + 32) else c

/-- sync.js `normalizeLabel`: remove all whitespace, trim, lowercase. -/
def normalizeLabel (s : List Char) : List Char :=
  (jsTrim (s.filter (fun c => !isJsWs c))).map jsToLower

/-- The canonical default status label, `'قيد الانتظار'`. -/
def pendingDesired : List Char := "قيد الانتظار".data

/-- sync.js membership test in the To-do semantic group:
    `(o.status && o.status.group === 'to_do') || o.group === 'to_do'`. -/
def isToDoOpt (o : SOption) : Bool :=
  o.statusGroup = some "to_do" || o.group = some "to_do"

/-- The normalized-label equality used by sync.js `pickPendingName` to find
    the desired option (whitespace removed, lowercased on both sides). -/
def isPendingMatch (o : SOption) : Bool :=
  normalizeLabel o.name = normalizeLabel pendingDesired

/-- sync.js `pickPendingName`: the name to assign plus whether it already
    exists among the options. Status kind never invents a new option name. -/
def pickPendingName (kind : SKind) (options : List SOption) :
    Option (List Char) × Bool :=
  match options.find? isPendingMatch with
  | some o => (some o.name, true)
  | none =>
    match kind with
    | .select => (some pendingDesired, false)
    | .status =>
      match options.find? isToDoOpt with
      | some o => (some o.name, true)
      | none =>
        match options with
        | o :: _ => (some o.name, true)
        | [] => (none, false)

/- ## The sync.js per-record reconciler -/

/-- The run context of `syncNotionTables` after schema discovery and
    employee-index build: detected relation name, detected status field,
    and the normalized-id → employee-page map. -/
structure SyncCtx where
  relationPropName : Option String
  statusProp : Option StatusProp
  employeesMap : List Char → Option String

/-- One field write of an Update Plan, in Notion update-call shape. -/
inductive PropWrite
  | wRelation (ids : List String)
  | wStatus (name : List Char)
  | wSelect (name : List Char)
  deriving DecidableEq

/-- An Update Plan: the `properties` object sent in one `pages.update`. -/
abbrev Plan := List (String × PropWrite)

/-- JS `p.status` read on an arbitrary property (undefined off-kind). -/
def propStatusName : PropVal → Option (List Char)
  | .statusP v => v
  | _ => none

/-- JS `p.select` read on an arbitrary property (undefined off-kind). -/
def propSelectName : PropVal → Option (List Char)
  | .selectP v => v
  | _ => none

/-- sync.js: does the record need its status filled? True when the detected
    status field exists and the page property is missing or empty. -/
def needsStatusUpdate (sp? : Option StatusProp) (props : Props) : Bool :=
  match sp? with
  | none => false
  | some sp =>
    match lookupProp props sp.name with
    | none => true
    | some p =>
      match sp.kind with
      | .status => (propStatusName p).isNone
      | .select => (propSelectName p).isNone

/-- sync.js: `r.type === 'relation' && r.relation.length > 0 &&
    r.relation[0].id === employeePageId`. -/
def relFirstIs (p : PropVal) (empId : String) : Bool :=
  match p with
  | .relationP ids =>
    match ids.head? with
    | some i => i = empId
    | none => false
  | _ => false

/-- sync.js: does the record need its relation (re)written? True when a
    relation field was detected and the page's relation does not already
    point first at the matched employee. -/
def needsRelationUpdate (rn? : Option String) (empId : String) (props : Props) : Bool :=
  match rn? with
  | none => false
  | some rn =>
    match lookupProp props rn with
    | none => true
    | some r => !relFirstIs r empId

/-- JS object property assignment on a plan: replace the binding in place
    when the key is present, else append. -/
def setPlanEntry : Plan → String → PropWrite → Plan
  | [], k, w => [(k, w)]
  | p :: rest, k, w => if p.1 = k then (k, w) :: rest else p :: setPlanEntry rest k w

/-- The relation part of the `updateLeaveRequestSmart` properties object:
    `if (employeePageId && relationPropName) properties[relationPropName] = …`. -/
def buildRelPart (ctx : SyncCtx) (employeePageId : Option String) : Plan :=
  match employeePageId, ctx.relationPropName with
  | some e, some rn => setPlanEntry [] rn (.wRelation [e])
  | _, _ => []

/-- The `properties` object built by sync.js `updateLeaveRequestSmart`:
    a relation link when requested, and a pending status when requested and
    a pickable name exists. Empty means no update call is issued. -/
def buildProperties (ctx : SyncCtx) (employeePageId : Option String)
    (setStatusToPending : Bool) : Plan :=
  if setStatusToPending then
    match ctx.statusProp with
    | some sp =>
      match (pickPendingName sp.kind sp.options).1 with
      | some nm =>
        setPlanEntry (buildRelPart ctx employeePageId) sp.name
          (match sp.kind with
           | .status => .wStatus nm
           | .select => .wSelect nm)
      | none => buildRelPart ctx employeePageId
    | none => buildRelPart ctx employeePageId
  else buildRelPart ctx employeePageId

/-- The employee match of the `syncNotionTables` per-record loop: null when
    the extracted id is falsy (the `skippedCount++; continue` branches),
    else the employees-map lookup of the normalized id. -/
def recMatched (ctx : SyncCtx) (props : Props) : Option String :=
  match extractIdNumber props with
  | none => none
  | some rid =>
    if rid.isEmpty then none
    else ctx.employeesMap (normalizeNumber (.vStr rid))

/-- The Update Plan sync.js `syncNotionTables` computes for one leave-request
    record: empty when the record has no truthy extracted id or no employee
    match (skipped), empty when already reconciled, otherwise the
    `updateLeaveRequestSmart` properties object. An empty plan means
    `pages.update` is never called for the record. -/
def recPlan (ctx : SyncCtx) (props : Props) : Plan :=
  match recMatched ctx props with
  | none => []
  | some empId =>
    if needsRelationUpdate ctx.relationPropName empId props ||
       needsStatusUpdate ctx.statusProp props then
      buildProperties ctx
        (if needsRelationUpdate ctx.relationPropName empId props
         then some empId else none)
        (needsStatusUpdate ctx.statusProp props)
    else []

/-- The page property a successful plan write leaves behind. -/
def applyWrite : PropWrite → PropVal
  | .wRelation ids => .relationP ids
  | .wStatus n => .statusP (some n)
  | .wSelect n => .selectP (some n)

/-- The store's effect of writing one field: replace the binding in place
    when the key is present, else append. -/
def setProp : Props → String → PropVal → Props
  | [], k, v => [(k, v)]
  | p :: rest, k, v => if p.1 = k then (k, v) :: rest else p :: setProp rest k v

/-- The store's effect of applying a whole Update Plan to a page. -/
def applyPlan (plan : Plan) (props : Props) : Props :=
  plan.foldl (fun ps p => setProp ps p.1 (applyWrite p.2)) props

/-- The record's status field already carries a value, read the way
    sync.js reads it (by the detected kind). -/
def statusSet (sp : StatusProp) (props : Props) : Bool :=
  match lookupProp props sp.name with
  | none => false
  | some p =>
    match sp.kind with
    | .status => (propStatusName p).isSome
    | .select => (propSelectName p).isSome

/-- Property kinds that neither the candidate loop nor the backup scan of
    `extractIdNumber` reads: relation, status, select. Plan writes produce
    only these kinds. -/
def ignorableVal : PropVal → Bool
  | .relationP _ => true
  | .statusP _ => true
  | .selectP _ => true
  | _ => false

/-- The detected relation field and status field have distinct names. This
    always holds for fields detected from one schema object: JS object keys
    are unique and the two detectors match disjoint kinds. -/
def relStatusDistinct (ctx : SyncCtx) : Bool :=
  match ctx.relationPropName, ctx.statusProp with
  | some rn, some sp => !(rn == sp.name)
  | _, _ => true

/-- The page's values at the detected relation/status names have the kinds
    the schema declares there (relation resp. status/select). This is the
    store invariant that page properties follow the database schema. -/
def wellTypedProps (ctx : SyncCtx) (props : Props) : Bool :=
  (match ctx.relationPropName with
   | some rn => props.all (fun p => !(p.1 == rn) || ignorableVal p.2)
   | none => true) &&
  (match ctx.statusProp with
   | some sp => props.all (fun p => !(p.1 == sp.name) || ignorableVal p.2)
   | none => true)

/- ## Store-write lemmas -/

theorem lookupProp_setProp_self (props : Props) (k : String) (v : PropVal) :
    lookupProp (setProp props k v) k = some v := by
  induction props with
  | nil => simp [setProp, lookupProp]
  | cons p rest ih =>
    by_cases h : p.1 = k
    · simp [setProp, h, lookupProp]
    · simp only [setProp, if_neg h]
      simpa [lookupProp, List.find?_cons, h] using ih

theorem lookupProp_setProp_ne (props : Props) (k : String) (v : PropVal)
    (k2 : String) (h : k2 ≠ k) :
    lookupProp (setProp props k v) k2 = lookupProp props k2 := by
  have hkk : ¬(k = k2) := fun he => h he.symm
  induction props with
  | nil => simp [setProp, lookupProp, List.find?_cons, hkk]
  | cons p rest ih =>
    by_cases hp : p.1 = k
    · have hp2 : ¬(p.1 = k2) := by rw [hp]; exact hkk
      simp [setProp, hp, lookupProp, List.find?_cons, hkk, hp2]
    · simp only [setProp, if_neg hp]
      by_cases hp2 : p.1 = k2
      · simp [lookupProp, List.find?_cons, hp2]
      · simpa [lookupProp, List.find?_cons, hp2] using ih

theorem findSome?_ext {α β : Type} (f g : α → Option β) :
    ∀ l : List α, (∀ a ∈ l, f a = g a) → l.findSome? f = l.findSome? g := by
  intro l
  induction l with
  | nil => intro _; rfl
  | cons a t ih =>
    intro h
    rw [List.findSome?_cons, List.findSome?_cons, h a (by simp)]
    cases g a with
    | some b => rfl
    | none => exact ih (fun x hx => h x (by simp [hx]))

theorem candStep_ignorable (p : PropVal) (h : ignorableVal p = true) :
    candStep p = none := by
  cases p <;> simp_all [ignorableVal, candStep]

theorem scanStep_ignorable (p : PropVal) (h : ignorableVal p = true) :
    scanStep p = none := by
  cases p <;> simp_all [ignorableVal, scanStep]

theorem lookupProp_some_ignorable (props : Props) (k : String) (p : PropVal)
    (hk : ∀ q ∈ props, q.1 = k → ignorableVal q.2 = true)
    (hl : lookupProp props k = some p) : ignorableVal p = true := by
  unfold lookupProp at hl
  obtain ⟨q, hq1, hq2⟩ := Option.map_eq_some'.mp hl
  have hqk : q.1 = k := by simpa using List.find?_some hq1
  have := hk q (List.mem_of_find?_eq_some hq1) hqk
  rwa [hq2] at this

theorem candidateLoop_setProp (props : Props) (k : String) (v : PropVal)
    (hv : ignorableVal v = true)
    (hk : ∀ p ∈ props, p.1 = k → ignorableVal p.2 = true) :
    candidateLoop (setProp props k v) = candidateLoop props := by
  unfold candidateLoop
  apply findSome?_ext
  intro name _
  by_cases hnk : name = k
  · subst hnk
    rw [lookupProp_setProp_self]
    cases hl : lookupProp props name with
    | none => simp [candStep_ignorable v hv]
    | some p =>
      have hip := lookupProp_some_ignorable props name p hk hl
      simp [candStep_ignorable v hv, candStep_ignorable p hip]
  · rw [lookupProp_setProp_ne props k v name hnk]

theorem fallbackScan_setProp (props : Props) (k : String) (v : PropVal)
    (hv : ignorableVal v = true)
    (hk : ∀ p ∈ props, p.1 = k → ignorableVal p.2 = true) :
    fallbackScan (setProp props k v) = fallbackScan props := by
  induction props with
  | nil => simp [setProp, fallbackScan, scanStep_ignorable v hv]
  | cons p rest ih =>
    by_cases hp : p.1 = k
    · have hip : ignorableVal p.2 = true := hk p (by simp) hp
      simp only [setProp, if_pos hp, fallbackScan, List.map_cons, List.findSome?_cons]
      rw [scanStep_ignorable v hv, scanStep_ignorable p.2 hip]
    · simp only [setProp, if_neg hp, fallbackScan, List.map_cons, List.findSome?_cons]
      cases hs : scanStep p.2 with
      | some b => rfl
      | none => exact ih (fun q hq hqk => hk q (by simp [hq]) hqk)

theorem extractIdNumber_setProp (props : Props) (k : String) (v : PropVal)
    (hv : ignorableVal v = true)
    (hk : ∀ p ∈ props, p.1 = k → ignorableVal p.2 = true) :
    extractIdNumber (setProp props k v) = extractIdNumber props := by
  unfold extractIdNumber
  rw [candidateLoop_setProp props k v hv hk, fallbackScan_setProp props k v hv hk]

theorem needsRelationUpdate_none (e : String) (props : Props) :
    needsRelationUpdate none e props = false := rfl

theorem relStatusDistinct_ne (ctx : SyncCtx) (rn : String) (sp : StatusProp)
    (h1 : ctx.relationPropName = some rn) (h2 : ctx.statusProp = some sp)
    (hd : relStatusDistinct ctx = true) : rn ≠ sp.name := by
  unfold relStatusDistinct at hd
  rw [h1, h2] at hd
  simpa using hd

theorem needsStatusUpdate_false_of_set (sp : StatusProp) (props : Props)
    (h : statusSet sp props = true) :
    needsStatusUpdate (some sp) props = false := by
  unfold statusSet at h
  unfold needsStatusUpdate
  cases hl : lookupProp props sp.name with
  | none => rw [hl] at h; simp at h
  | some p =>
    rw [hl] at h
    cases hk : sp.kind <;> rw [hk] at h <;> simp_all

/- ## Claim C4: pending-status selection on a closed status field -/

/-- The option list refuting claim C4 as stated: the canonical default name
    exists among the options, but a different option with the same
    whitespace-stripped label comes first. -/
def c4Opts : List SOption :=
  [⟨"قيدالانتظار".data, none, none⟩, ⟨"قيد الانتظار".data, none, none⟩]

/-- C4 counterexample: with `c4Opts`, the canonical default "قيد الانتظار"
    exists among the status field's options, yet `pickPendingName` selects the
    earlier option "قيدالانتظار" (whitespace-insensitive label match), so the
    planned status value is not the canonical default. -/
theorem C4_counterexample :
    pendingDesired ∈ c4Opts.map SOption.name ∧
    (pickPendingName .status c4Opts).1 = some "قيدالانتظار".data ∧
    "قيدالانتظار".data ≠ pendingDesired := by
  refine ⟨by decide, by decide, by decide⟩

/-- C4 amended: for a closed `workflow_status` field, the selected default is
    the name of the FIRST option whose whitespace-stripped lowercased label
    equals that of "قيد الانتظار" (so the canonical default itself whenever it
    is that first match); otherwise the first option of the to_do group;
    otherwise the first option; otherwise the status write is skipped. Every
    selected name belongs to the closed option set, and a record whose status
    field is already set receives no write to that field in its plan. -/
theorem C4_amended (opts : List SOption) (ctx : SyncCtx) (props : Props) :
    (∀ nm, (pickPendingName .status opts).1 = some nm → nm ∈ opts.map SOption.name) ∧
    (∀ o, opts.find? isPendingMatch = some o →
      (pickPendingName .status opts).1 = some o.name) ∧
    (opts.find? isPendingMatch = none →
      (∀ o, opts.find? isToDoOpt = some o →
        (pickPendingName .status opts).1 = some o.name) ∧
      (opts.find? isToDoOpt = none → ∀ o rest, opts = o :: rest →
        (pickPendingName .status opts).1 = some o.name) ∧
      (opts = [] → (pickPendingName .status opts).1 = none)) ∧
    (∀ sp, ctx.statusProp = some sp → statusSet sp props = true →
      relStatusDistinct ctx = true →
      ∀ w, (sp.name, w) ∉ recPlan ctx props) := by
  refine ⟨?_, ?_, ?_, ?_⟩
  · intro nm h
    unfold pickPendingName at h
    cases hf : opts.find? isPendingMatch with
    | some o =>
      rw [hf] at h
      obtain rfl : _ = nm := Option.some.inj h
      exact List.mem_map_of_mem _ (List.mem_of_find?_eq_some hf)
    | none =>
      rw [hf] at h
      cases ht : opts.find? isToDoOpt with
      | some o =>
        rw [ht] at h
        obtain rfl : _ = nm := Option.some.inj h
        exact List.mem_map_of_mem _ (List.mem_of_find?_eq_some ht)
      | none =>
        rw [ht] at h
        cases opts with
        | nil => simp at h
        | cons o rest =>
          obtain rfl : _ = nm := Option.some.inj h
          simp
  · intro o hf
    unfold pickPendingName
    rw [hf]
  · intro hf
    refine ⟨?_, ?_, ?_⟩
    · intro o ht
      unfold pickPendingName
      rw [hf, ht]
    · intro ht o rest he
      subst he
      unfold pickPendingName
      rw [hf, ht]
    · intro he
      subst he
      unfold pickPendingName
      rw [hf]
      rfl
  · intro sp hsp hset hd w hmem
    have hns : needsStatusUpdate ctx.statusProp props = false := by
      rw [hsp]
      exact needsStatusUpdate_false_of_set sp props hset
    unfold recPlan at hmem
    cases hm : recMatched ctx props with
    | none => rw [hm] at hmem; simp at hmem
    | some empId =>
      rw [hm, hns] at hmem
      dsimp only at hmem
      by_cases hnr : needsRelationUpdate ctx.relationPropName empId props = true
      · rw [hnr] at hmem
        simp only [Bool.true_or, if_true, if_pos] at hmem
        unfold buildProperties at hmem
        cases hrn : ctx.relationPropName with
        | none => rw [hrn] at hnr; simp [needsRelationUpdate] at hnr
        | some rn =>
          simp [buildRelPart, hrn, setPlanEntry] at hmem
          exact relStatusDistinct_ne ctx rn sp hrn hsp hd hmem.1.symm
      · have hnr2 : needsRelationUpdate ctx.relationPropName empId props = false := by
          simpa using hnr
        rw [hnr2] at hmem
        simp at hmem

/-- Witness for C4_amended: the canonical default is picked when it is the
    first normalized match, and a record with a set status gets no status
    write in its plan. -/
theorem C4_amended_witness :
    (pickPendingName .status [⟨pendingDesired, none, none⟩]).1 = some pendingDesired ∧
    ("حالة الطلب", PropWrite.wStatus pendingDesired) ∉
      recPlan ⟨some "الموظف",
                some ⟨"حالة الطلب", .status, [⟨pendingDesired, none, none⟩]⟩,
                fun _ => none⟩
        [("حالة الطلب", PropVal.statusP (some "موافقة".data))] := by
  have h := C4_amended [⟨pendingDesired, none, none⟩]
    ⟨some "الموظف", some ⟨"حالة الطلب", .status, [⟨pendingDesired, none, none⟩]⟩,
      fun _ => none⟩
    [("حالة الطلب", PropVal.statusP (some "موافقة".data))]
  refine ⟨?_, ?_⟩
  · exact h.2.1 ⟨pendingDesired, none, none⟩ (by decide)
  · exact h.2.2.2 ⟨"حالة الطلب", .status, [⟨pendingDesired, none, none⟩]⟩
      rfl (by decide) (by decide) (PropWrite.wStatus pendingDesired)

/- ## Claim C6: relation-role detection and its failure mode -/

/-- Field lookup in a schema object. -/
def lookupField (schema : Schema) (name : String) : Option FieldDef :=
  (schema.find? (fun p => p.1 = name)).map (·.2)

/-- part_002 `detectLeaveSchema`, relation step: an env override naming a
    relation field wins; else the first relation field whose declared target
    is the employees database. There is no any-target fallback. -/
def detectRelationP2 (override : Option String) (empDb : String)
    (schema : Schema) : Option String :=
  match override with
  | some ov =>
    match lookupField schema ov with
    | some (.fdRelation _) => some ov
    | _ => findRelExact empDb schema
  | none => findRelExact empDb schema

/-- part_002 `detectLeaveSchema` outcome for the relation role: `error` models
    the thrown `لا يوجد عمود Relation ...` (the run aborts before any record
    is processed). -/
def detectLeaveSchemaRel (override : Option String) (empDb : String)
    (schema : Schema) : Except Unit String :=
  match detectRelationP2 override empDb schema with
  | some n => .ok n
  | none => .error ()

/-- The schema refuting the hard-failure half of claim C6 for sync.js:
    no relation field at all, but a detectable status field. -/
def c6Schema : Schema :=
  [("الهويه رقم", .fdOther),
   ("حالة الطلب", .fdStatus [⟨pendingDesired, none, none⟩])]

/-- The sync context sync.js derives from `c6Schema` (relation detection
    yields null) with one indexed employee. -/
def c6Ctx : SyncCtx :=
  ⟨findEmployeeRelationPropName "empDB" c6Schema,
   findStatusProp c6Schema,
   fun s => if s = "123456789".data then some "emp-1" else none⟩

/-- A leave-request record with a valid, matching identifier and empty status. -/
def c6Props : Props :=
  [("رقم الهوية", .richTextP ["123456789".data]),
   ("حالة الطلب", .statusP none)]

/-- C6 counterexample: with no relation field in the schema, sync.js detection
    returns null, yet the reconciler still computes a NON-empty plan for a
    record (its status is backfilled) — reconciliation of the table proceeds
    instead of failing hard. -/
theorem C6_counterexample :
    findEmployeeRelationPropName "empDB" c6Schema = none ∧
    c6Ctx.relationPropName = none ∧
    recPlan c6Ctx c6Props = [("حالة الطلب", .wStatus pendingDesired)] ∧
    recPlan c6Ctx c6Props ≠ [] := by
  refine ⟨by decide, by decide, by decide, by decide⟩

/-- With no detected relation field the relation part of the plan is empty. -/
theorem buildRelPart_none (ctx : SyncCtx) (hrel : ctx.relationPropName = none)
    (e : Option String) : buildRelPart ctx e = [] := by
  unfold buildRelPart
  rw [hrel]
  cases e <;> rfl

/-- No relation write can appear in a plan built with no detected relation
    field: the properties object of `updateLeaveRequestSmart` then contains at
    most a status/select write. -/
theorem buildProperties_no_rel (ctx : SyncCtx) (hrel : ctx.relationPropName = none)
    (empId? : Option String) (b : Bool) (k : String) (ids : List String) :
    (k, PropWrite.wRelation ids) ∉ buildProperties ctx empId? b := by
  intro hmem
  unfold buildProperties at hmem
  rw [buildRelPart_none ctx hrel] at hmem
  split at hmem
  · split at hmem
    · split at hmem
      · simp only [setPlanEntry] at hmem
        split at hmem <;> simp at hmem
      · simp at hmem
    · simp at hmem
  · simp at hmem

/-- C6 amended: sync.js `findEmployeeRelationPropName` returns the first
    relation field targeting the employees database, else the first relation
    field of any target, else null; when it is null sync.js does NOT fail
    hard — it continues reconciling, merely never planning a relation write —
    while the part_002 `detectLeaveSchema` variant throws (hard failure) when
    no employees-target relation exists and no override is set, even if a
    relation field with another target exists. -/
theorem C6_amended (empDb : String) (schema : Schema) (ctx : SyncCtx) :
    (∀ n, findRelExact empDb schema = some n →
      findEmployeeRelationPropName empDb schema = some n ∧
      (n, .fdRelation (some empDb)) ∈ schema) ∧
    (findRelExact empDb schema = none →
      findEmployeeRelationPropName empDb schema = findRelAny schema ∧
      ∀ n, findRelAny schema = some n → ∃ t, (n, .fdRelation t) ∈ schema) ∧
    ((∀ p ∈ schema, ∀ t, p.2 ≠ .fdRelation t) →
      findEmployeeRelationPropName empDb schema = none) ∧
    (findRelExact empDb schema = none →
      detectLeaveSchemaRel none empDb schema = .error ()) ∧
    (ctx.relationPropName = none →
      ∀ props k ids, (k, PropWrite.wRelation ids) ∉ recPlan ctx props) := by
  refine ⟨?_, ?_, ?_, ?_, ?_⟩
  · intro n h
    refine ⟨by unfold findEmployeeRelationPropName; rw [h], ?_⟩
    induction schema with
    | nil => simp [findRelExact] at h
    | cons p rest ih =>
      obtain ⟨n2, fd⟩ := p
      cases fd with
      | fdRelation t =>
        simp only [findRelExact] at h
        by_cases ht : t = some empDb
        · rw [if_pos ht] at h
          obtain rfl : n2 = n := Option.some.inj h
          rw [ht]
          exact List.mem_cons_self _ _
        · rw [if_neg ht] at h
          exact List.mem_cons_of_mem _ (ih h)
      | fdStatus opts =>
        simp only [findRelExact] at h
        exact List.mem_cons_of_mem _ (ih h)
      | fdSelect opts =>
        simp only [findRelExact] at h
        exact List.mem_cons_of_mem _ (ih h)
      | fdOther =>
        simp only [findRelExact] at h
        exact List.mem_cons_of_mem _ (ih h)
  · intro h
    refine ⟨by unfold findEmployeeRelationPropName; rw [h], ?_⟩
    intro n hn
    clear h
    induction schema with
    | nil => simp [findRelAny] at hn
    | cons p rest ih =>
      obtain ⟨n2, fd⟩ := p
      cases fd with
      | fdRelation t =>
        simp only [findRelAny] at hn
        obtain rfl : n2 = n := Option.some.inj hn
        exact ⟨t, List.mem_cons_self _ _⟩
      | fdStatus opts =>
        simp only [findRelAny] at hn
        obtain ⟨t, ht⟩ := ih hn
        exact ⟨t, List.mem_cons_of_mem _ ht⟩
      | fdSelect opts =>
        simp only [findRelAny] at hn
        obtain ⟨t, ht⟩ := ih hn
        exact ⟨t, List.mem_cons_of_mem _ ht⟩
      | fdOther =>
        simp only [findRelAny] at hn
        obtain ⟨t, ht⟩ := ih hn
        exact ⟨t, List.mem_cons_of_mem _ ht⟩
  · intro h
    have hany : ∀ sch : Schema, (∀ p ∈ sch, ∀ t, p.2 ≠ .fdRelation t) →
        findRelAny sch = none := by
      intro sch
      induction sch with
      | nil => intro _; rfl
      | cons p rest ih =>
        intro hh
        obtain ⟨n2, fd⟩ := p
        cases fd with
        | fdRelation t => exact absurd rfl (hh (n2, .fdRelation t) (by simp) t)
        | fdStatus opts =>
          simp only [findRelAny]; exact ih (fun q hq => hh q (by simp [hq]))
        | fdSelect opts =>
          simp only [findRelAny]; exact ih (fun q hq => hh q (by simp [hq]))
        | fdOther =>
          simp only [findRelAny]; exact ih (fun q hq => hh q (by simp [hq]))
    have hex : ∀ sch : Schema, (∀ p ∈ sch, ∀ t, p.2 ≠ .fdRelation t) →
        findRelExact empDb sch = none := by
      intro sch
      induction sch with
      | nil => intro _; rfl
      | cons p rest ih =>
        intro hh
        obtain ⟨n2, fd⟩ := p
        cases fd with
        | fdRelation t => exact absurd rfl (hh (n2, .fdRelation t) (by simp) t)
        | fdStatus opts =>
          simp only [findRelExact]; exact ih (fun q hq => hh q (by simp [hq]))
        | fdSelect opts =>
          simp only [findRelExact]; exact ih (fun q hq => hh q (by simp [hq]))
        | fdOther =>
          simp only [findRelExact]; exact ih (fun q hq => hh q (by simp [hq]))
    unfold findEmployeeRelationPropName
    rw [hex schema h, hany schema h]
  · intro h
    unfold detectLeaveSchemaRel detectRelationP2
    rw [h]
  · intro h props k ids hmem
    unfold recPlan at hmem
    cases hm : recMatched ctx props with
    | none => rw [hm] at hmem; simp at hmem
    | some empId =>
      rw [hm] at hmem
      dsimp only at hmem
      by_cases hc : (needsRelationUpdate ctx.relationPropName empId props ||
          needsStatusUpdate ctx.statusProp props) = true
      · rw [if_pos hc] at hmem
        exact buildProperties_no_rel ctx h _ _ k ids hmem
      · rw [if_neg hc] at hmem
        simp at hmem

/-- Witness for C6_amended at a schema with an exact-target relation field. -/
theorem C6_amended_witness :
    findEmployeeRelationPropName "empDB"
      [("x", FieldDef.fdOther), ("emp", FieldDef.fdRelation (some "empDB"))] =
      some "emp" ∧
    ("emp", FieldDef.fdRelation (some "empDB")) ∈
      [("x", FieldDef.fdOther), ("emp", FieldDef.fdRelation (some "empDB"))] := by
  exact (C6_amended "empDB"
    [("x", FieldDef.fdOther), ("emp", FieldDef.fdRelation (some "empDB"))]
    ⟨none, none, fun _ => none⟩).1 "emp" (by decide)


/- ## Claim C1: reconciliation idempotence and plan minimality (sync.js) -/

theorem recMatched_setProp (ctx : SyncCtx) (props : Props) (k : String) (v : PropVal)
    (hv : ignorableVal v = true)
    (hk : ∀ p ∈ props, p.1 = k → ignorableVal p.2 = true) :
    recMatched ctx (setProp props k v) = recMatched ctx props := by
  unfold recMatched
  rw [extractIdNumber_setProp props k v hv hk]

theorem keyIgnorable_setProp (props : Props) (k : String) (v : PropVal) (k2 : String)
    (hv : ignorableVal v = true)
    (hk2 : ∀ p ∈ props, p.1 = k2 → ignorableVal p.2 = true) :
    ∀ p ∈ setProp props k v, p.1 = k2 → ignorableVal p.2 = true := by
  induction props with
  | nil =>
    intro p hp _
    simp only [setProp, List.mem_singleton] at hp
    rw [hp]
    exact hv
  | cons q rest ih =>
    intro p hp hpk
    by_cases hq : q.1 = k
    · rw [setProp, if_pos hq] at hp
      rcases List.mem_cons.mp hp with h | h
      · rw [h]; exact hv
      · exact hk2 p (List.mem_cons_of_mem _ h) hpk
    · rw [setProp, if_neg hq] at hp
      rcases List.mem_cons.mp hp with h | h
      · exact hk2 p (by rw [h]; exact List.mem_cons_self _ _) hpk
      · exact ih (fun p2 hp2 hpk2 => hk2 p2 (List.mem_cons_of_mem _ hp2) hpk2) p h hpk

theorem wellTypedProps_spec (ctx : SyncCtx) (props : Props)
    (hw : wellTypedProps ctx props = true) :
    (∀ rn, ctx.relationPropName = some rn →
      ∀ p ∈ props, p.1 = rn → ignorableVal p.2 = true) ∧
    (∀ sp, ctx.statusProp = some sp →
      ∀ p ∈ props, p.1 = sp.name → ignorableVal p.2 = true) := by
  unfold wellTypedProps at hw
  rw [Bool.and_eq_true] at hw
  obtain ⟨h1, h2⟩ := hw
  constructor
  · intro rn hrn p hp hpk
    rw [hrn] at h1
    have h3 := List.all_eq_true.mp h1 p hp
    simp only [Bool.or_eq_true] at h3
    rcases h3 with h | h
    · rw [hpk] at h; simp at h
    · exact h
  · intro sp hsp p hp hpk
    rw [hsp] at h2
    have h3 := List.all_eq_true.mp h2 p hp
    simp only [Bool.or_eq_true] at h3
    rcases h3 with h | h
    · rw [hpk] at h; simp at h
    · exact h

theorem buildRelPart_some (ctx : SyncCtx) (rn : String)
    (hrn : ctx.relationPropName = some rn) (e : String) :
    buildRelPart ctx (some e) = [(rn, .wRelation [e])] := by
  unfold buildRelPart
  rw [hrn]
  rfl

/-- The status write `updateLeaveRequestSmart` issues for a picked name,
    shaped by the detected field's kind. -/
def statusWriteOf (sp : StatusProp) (nm : List Char) : PropWrite :=
  match sp.kind with
  | .status => .wStatus nm
  | .select => .wSelect nm

theorem buildProperties_pick_none (ctx : SyncCtx) (sp : StatusProp)
    (hsp : ctx.statusProp = some sp)
    (hpick : (pickPendingName sp.kind sp.options).1 = none) :
    buildProperties ctx none true = [] := by
  unfold buildProperties
  simp only [eq_self_iff_true, if_true]
  rw [hsp]
  dsimp only
  rw [hpick]
  unfold buildRelPart
  cases hr : ctx.relationPropName <;> rfl

theorem buildProperties_shape_both (ctx : SyncCtx) (rn : String) (sp : StatusProp)
    (nm : List Char) (empId : String)
    (hrn : ctx.relationPropName = some rn) (hsp : ctx.statusProp = some sp)
    (hpick : (pickPendingName sp.kind sp.options).1 = some nm)
    (hdist : rn ≠ sp.name) :
    buildProperties ctx (some empId) true =
      [(rn, .wRelation [empId]), (sp.name, statusWriteOf sp nm)] := by
  unfold buildProperties
  simp only [eq_self_iff_true, if_true]
  rw [hsp]
  dsimp only
  rw [hpick]
  dsimp only
  rw [buildRelPart_some ctx rn hrn empId]
  simp [setPlanEntry, statusWriteOf, hdist]

theorem buildProperties_shape_relPickNone (ctx : SyncCtx) (rn : String)
    (sp : StatusProp) (empId : String)
    (hrn : ctx.relationPropName = some rn) (hsp : ctx.statusProp = some sp)
    (hpick : (pickPendingName sp.kind sp.options).1 = none) :
    buildProperties ctx (some empId) true = [(rn, .wRelation [empId])] := by
  unfold buildProperties
  simp only [eq_self_iff_true, if_true]
  rw [hsp]
  dsimp only
  rw [hpick]
  exact buildRelPart_some ctx rn hrn empId

theorem buildProperties_shape_relOnly (ctx : SyncCtx) (rn : String) (empId : String)
    (hrn : ctx.relationPropName = some rn) :
    buildProperties ctx (some empId) false = [(rn, .wRelation [empId])] := by
  unfold buildProperties
  simp only [Bool.false_eq_true, if_false]
  exact buildRelPart_some ctx rn hrn empId

theorem buildProperties_shape_statusOnly (ctx : SyncCtx) (sp : StatusProp)
    (nm : List Char)
    (hsp : ctx.statusProp = some sp)
    (hpick : (pickPendingName sp.kind sp.options).1 = some nm) :
    buildProperties ctx none true = [(sp.name, statusWriteOf sp nm)] := by
  unfold buildProperties
  simp only [eq_self_iff_true, if_true]
  rw [hsp]
  dsimp only
  rw [hpick]
  dsimp only
  have hb : buildRelPart ctx none = [] := by
    unfold buildRelPart
    cases hr : ctx.relationPropName <;> rfl
  rw [hb]
  simp [setPlanEntry, statusWriteOf]

theorem needsRel_true_some (rn? : Option String) (empId : String) (props2 : Props)
    (h : needsRelationUpdate rn? empId props2 = true) : ∃ rn, rn? = some rn := by
  cases rn? with
  | none => simp [needsRelationUpdate] at h
  | some rn => exact ⟨rn, rfl⟩

theorem needsStatus_true_some (sp? : Option StatusProp) (props2 : Props)
    (h : needsStatusUpdate sp? props2 = true) : ∃ sp, sp? = some sp := by
  cases sp? with
  | none => simp [needsStatusUpdate] at h
  | some sp => exact ⟨sp, rfl⟩

theorem needsRel_false_after (ctx : SyncCtx) (rn : String)
    (hrn : ctx.relationPropName = some rn) (empId : String) (props2 : Props) :
    needsRelationUpdate ctx.relationPropName empId
      (setProp props2 rn (.relationP [empId])) = false := by
  unfold needsRelationUpdate
  rw [hrn]
  dsimp only
  rw [lookupProp_setProp_self]
  simp [relFirstIs]

theorem needsRel_setProp_other (rn? : Option String) (empId : String)
    (props2 : Props) (k : String) (v : PropVal)
    (hne : ∀ rn, rn? = some rn → k ≠ rn) :
    needsRelationUpdate rn? empId (setProp props2 k v) =
      needsRelationUpdate rn? empId props2 := by
  cases rn? with
  | none => rfl
  | some rn =>
    unfold needsRelationUpdate
    dsimp only
    rw [lookupProp_setProp_ne props2 k v rn (fun he => hne rn rfl he.symm)]

theorem needsStatus_setProp_other (sp? : Option StatusProp)
    (props2 : Props) (k : String) (v : PropVal)
    (hne : ∀ sp, sp? = some sp → k ≠ sp.name) :
    needsStatusUpdate sp? (setProp props2 k v) = needsStatusUpdate sp? props2 := by
  cases sp? with
  | none => rfl
  | some sp =>
    unfold needsStatusUpdate
    dsimp only
    rw [lookupProp_setProp_ne props2 k v sp.name (fun he => hne sp rfl he.symm)]

theorem needsStatus_false_after (sp : StatusProp) (props2 : Props) (nm : List Char) :
    needsStatusUpdate (some sp)
      (setProp props2 sp.name (applyWrite (statusWriteOf sp nm))) = false := by
  unfold needsStatusUpdate
  dsimp only
  rw [lookupProp_setProp_self]
  unfold statusWriteOf
  cases hk : sp.kind <;> simp [applyWrite, propStatusName, propSelectName]

/-- A second-pass plan is empty whenever the record matches, the relation no
    longer needs an update, and any remaining status need is unpickable. -/
theorem recPlan_empty_of (ctx : SyncCtx) (props2 : Props) (empId : String)
    (hm : recMatched ctx props2 = some empId)
    (hr : needsRelationUpdate ctx.relationPropName empId props2 = false)
    (hs : ∀ sp, ctx.statusProp = some sp →
      needsStatusUpdate ctx.statusProp props2 = true →
      (pickPendingName sp.kind sp.options).1 = none) :
    recPlan ctx props2 = [] := by
  unfold recPlan
  rw [hm]
  dsimp only
  rw [hr]
  cases hb : needsStatusUpdate ctx.statusProp props2 with
  | false => simp
  | true =>
    simp only [Bool.false_or, if_true, Bool.false_eq_true, if_false]
    cases hsp : ctx.statusProp with
    | none =>
      unfold needsStatusUpdate at hb
      rw [hsp] at hb
      simp at hb
    | some sp => exact buildProperties_pick_none ctx sp hsp (hs sp hsp hb)

/-- Reconciliation by the sync.js reconciler is idempotent. Applying the plan
    computed for a record and re-running the reconciler over the unchanged
    result computes an empty Update Plan (hence no `pages.update` call); and a
    record whose relation already points first at the matched employee and
    whose status field is already set gets an empty plan on the first pass.
    Hypotheses: the detected relation and status field names are distinct
    (object keys are unique and the detectors match disjoint kinds) and the
    page's values at the detected names have the schema-declared kinds. -/
theorem sync_reconcile_idempotent (ctx : SyncCtx) (props : Props)
    (hd : relStatusDistinct ctx = true)
    (hw : wellTypedProps ctx props = true) :
    recPlan ctx (applyPlan (recPlan ctx props) props) = [] ∧
    (∀ empId rn rest sp,
      recMatched ctx props = some empId →
      ctx.relationPropName = some rn →
      lookupProp props rn = some (.relationP (empId :: rest)) →
      ctx.statusProp = some sp →
      statusSet sp props = true →
      recPlan ctx props = []) := by
  obtain ⟨hwR, hwS⟩ := wellTypedProps_spec ctx props hw
  constructor
  · cases hm : recMatched ctx props with
    | none =>
      have hplan : recPlan ctx props = [] := by unfold recPlan; rw [hm]
      rw [hplan]
      show recPlan ctx (applyPlan [] props) = []
      rw [show applyPlan [] props = props from rfl]
      exact hplan
    | some empId =>
      by_cases hneed : (needsRelationUpdate ctx.relationPropName empId props ||
          needsStatusUpdate ctx.statusProp props) = true
      · have hplan : recPlan ctx props =
            buildProperties ctx
              (if needsRelationUpdate ctx.relationPropName empId props
               then some empId else none)
              (needsStatusUpdate ctx.statusProp props) := by
          unfold recPlan
          rw [hm]
          dsimp only
          rw [if_pos hneed]
        by_cases hnr : needsRelationUpdate ctx.relationPropName empId props = true
        · obtain ⟨rn, hrn⟩ := needsRel_true_some _ _ _ hnr
          by_cases hns : needsStatusUpdate ctx.statusProp props = true
          · obtain ⟨sp, hsp⟩ := needsStatus_true_some _ _ hns
            have hdist : rn ≠ sp.name := relStatusDistinct_ne ctx rn sp hrn hsp hd
            cases hpick : (pickPendingName sp.kind sp.options).1 with
            | some nm =>
              have hplan2 : recPlan ctx props =
                  [(rn, .wRelation [empId]), (sp.name, statusWriteOf sp nm)] := by
                rw [hplan, hnr, hns]
                simp only [eq_self_iff_true, if_true]
                exact buildProperties_shape_both ctx rn sp nm empId hrn hsp hpick hdist
              rw [hplan2]
              rw [show applyPlan
                  [(rn, PropWrite.wRelation [empId]), (sp.name, statusWriteOf sp nm)]
                  props =
                  setProp (setProp props rn (.relationP [empId])) sp.name
                    (applyWrite (statusWriteOf sp nm)) from rfl]
              have hk1 : ∀ p ∈ props, p.1 = rn → ignorableVal p.2 = true :=
                hwR rn hrn
              have hk2 : ∀ p ∈ setProp props rn (.relationP [empId]),
                  p.1 = sp.name → ignorableVal p.2 = true :=
                keyIgnorable_setProp props rn (.relationP [empId]) sp.name
                  (by rfl) (hwS sp hsp)
              have hig : ignorableVal (applyWrite (statusWriteOf sp nm)) = true := by
                unfold statusWriteOf
                cases sp.kind <;> rfl
              apply recPlan_empty_of ctx _ empId
              · rw [recMatched_setProp ctx _ sp.name _ hig hk2,
                   recMatched_setProp ctx props rn _ (by rfl) hk1]
                exact hm
              · rw [needsRel_setProp_other _ empId _ sp.name _
                    (fun rn2 hrn2 => by
                      rw [hrn] at hrn2
                      obtain rfl : rn = rn2 := Option.some.inj hrn2
                      exact fun he => hdist he.symm)]
                exact needsRel_false_after ctx rn hrn empId props
              · intro sp2 hsp2 hb
                rw [hsp] at hsp2
                obtain rfl : sp = sp2 := Option.some.inj hsp2
                rw [hsp, needsStatus_false_after sp _ nm] at hb
                exact absurd hb (by simp)
            | none =>
              have hplan2 : recPlan ctx props = [(rn, .wRelation [empId])] := by
                rw [hplan, hnr, hns]
                simp only [eq_self_iff_true, if_true]
                exact buildProperties_shape_relPickNone ctx rn sp empId hrn hsp hpick
              rw [hplan2]
              rw [show applyPlan [(rn, PropWrite.wRelation [empId])] props =
                  setProp props rn (.relationP [empId]) from rfl]
              apply recPlan_empty_of ctx _ empId
              · rw [recMatched_setProp ctx props rn _ (by rfl) (hwR rn hrn)]
                exact hm
              · exact needsRel_false_after ctx rn hrn empId props
              · intro sp2 hsp2 _
                rw [hsp] at hsp2
                obtain rfl : sp = sp2 := Option.some.inj hsp2
                exact hpick
          · have hns2 : needsStatusUpdate ctx.statusProp props = false := by
              simpa using hns
            have hplan2 : recPlan ctx props = [(rn, .wRelation [empId])] := by
              rw [hplan, hnr, hns2]
              simp only [eq_self_iff_true, if_true]
              exact buildProperties_shape_relOnly ctx rn empId hrn
            rw [hplan2]
            rw [show applyPlan [(rn, PropWrite.wRelation [empId])] props =
                setProp props rn (.relationP [empId]) from rfl]
            apply recPlan_empty_of ctx _ empId
            · rw [recMatched_setProp ctx props rn _ (by rfl) (hwR rn hrn)]
              exact hm
            · exact needsRel_false_after ctx rn hrn empId props
            · intro sp2 hsp2 hb
              rw [needsStatus_setProp_other _ props rn _
                  (fun sp3 hsp3 => by
                    rw [hsp2] at hsp3
                    obtain rfl : sp2 = sp3 := Option.some.inj hsp3
                    exact relStatusDistinct_ne ctx rn sp2 hrn hsp2 hd)] at hb
              rw [hb] at hns2
              exact absurd hns2 (by simp)
        · have hnr2 : needsRelationUpdate ctx.relationPropName empId props = false := by
            simpa using hnr
          have hns : needsStatusUpdate ctx.statusProp props = true := by
            have := hneed
            simp only [Bool.or_eq_true] at this
            rcases this with h | h
            · exact absurd h hnr
            · exact h
          obtain ⟨sp, hsp⟩ := needsStatus_true_some _ _ hns
          cases hpick : (pickPendingName sp.kind sp.options).1 with
          | some nm =>
            have hplan2 : recPlan ctx props = [(sp.name, statusWriteOf sp nm)] := by
              rw [hplan, hnr2, hns]
              simp only [Bool.false_eq_true, if_false]
              exact buildProperties_shape_statusOnly ctx sp nm hsp hpick
            rw [hplan2]
            rw [show applyPlan [(sp.name, statusWriteOf sp nm)] props =
                setProp props sp.name (applyWrite (statusWriteOf sp nm)) from rfl]
            have hig : ignorableVal (applyWrite (statusWriteOf sp nm)) = true := by
              unfold statusWriteOf
              cases sp.kind <;> rfl
            apply recPlan_empty_of ctx _ empId
            · rw [recMatched_setProp ctx props sp.name _ hig (hwS sp hsp)]
              exact hm
            · rw [needsRel_setProp_other _ empId props sp.name _
                  (fun rn2 hrn2 => fun he =>
                    relStatusDistinct_ne ctx rn2 sp hrn2 hsp hd he.symm)]
              exact hnr2
            · intro sp2 hsp2 hb
              rw [hsp] at hsp2
              obtain rfl : sp = sp2 := Option.some.inj hsp2
              rw [hsp, needsStatus_false_after sp props nm] at hb
              exact absurd hb (by simp)
          | none =>
            have hplan2 : recPlan ctx props = [] := by
              rw [hplan, hnr2, hns]
              simp only [Bool.false_eq_true, if_false]
              exact buildProperties_pick_none ctx sp hsp hpick
            rw [hplan2]
            rw [show applyPlan [] props = props from rfl]
            apply recPlan_empty_of ctx props empId hm hnr2
            intro sp2 hsp2 _
            rw [hsp] at hsp2
            obtain rfl : sp = sp2 := Option.some.inj hsp2
            exact hpick
      · have hplan : recPlan ctx props = [] := by
          unfold recPlan
          rw [hm]
          dsimp only
          rw [if_neg hneed]
        rw [hplan]
        show recPlan ctx (applyPlan [] props) = []
        rw [show applyPlan [] props = props from rfl]
        exact hplan
  · intro empId rn rest sp hm hrn hlook hsp hset
    unfold recPlan
    rw [hm]
    dsimp only
    have hr : needsRelationUpdate ctx.relationPropName empId props = false := by
      unfold needsRelationUpdate
      rw [hrn]
      dsimp only
      rw [hlook]
      simp [relFirstIs]
    have hs : needsStatusUpdate ctx.statusProp props = false := by
      rw [hsp]
      exact needsStatusUpdate_false_of_set sp props hset
    rw [hr, hs]
    simp

/-- The concrete witness context for C1: detected relation and status fields,
    one indexed employee under the normalized key "123456789". -/
def c1Ctx : SyncCtx :=
  ⟨some "الموظف",
   some ⟨"حالة الطلب", .status, [⟨pendingDesired, none, none⟩]⟩,
   fun s => if s = "123456789".data then some "emp-1" else none⟩

/-- A leave request holding the Eastern-Arabic id "١٢٣٤٥٦٧٨٩", an empty
    relation, and an empty status. -/
def c1Props : Props :=
  [("رقم الهوية", .richTextP ["١٢٣٤٥٦٧٨٩".data]),
   ("الموظف", .relationP []),
   ("حالة الطلب", .statusP none)]

/- ## Claim C1, part_003 variant: NotionSync.syncLeaveRequests -/

/-- Identifier candidate names of part_003 `syncLeaveRequests`. -/
def p3IdCandidates : List String := ["رقم الهوية", "ID Number", "رقم"]

/-- Relation candidate names of part_003 `syncLeaveRequests`. -/
def p3RelCandidates : List String := ["اسم الموظف", "Employee Name", "الموظف"]

/-- Status candidate names of part_003 `syncLeaveRequests`. -/
def p3StatusCandidates : List String := ["حالة الطلب", "Status", "الحالة"]

/-- JS object-key coercion: `updates[k]` stores under `String(k)`, so a null
    key becomes the literal string "null". -/
def jsKey : Option String → String
  | some n => n
  | none => "null"

/-- Candidate loop of part_003's id extraction: for each candidate name in
    order, a present property of number kind assigns `prop.number` and one of
    rich_text kind assigns the first run's text (or ''); the loop stops at the
    first truthy assigned value and otherwise keeps the last assignment
    (present properties of other kinds assign nothing). -/
def p3ExtractGo (props : Props) : List String → JSValue → JSValue
  | [], acc => acc
  | name :: rest, acc =>
    match lookupProp props name with
    | none => p3ExtractGo props rest acc
    | some (.numberP (some m)) =>
      if jsTruthy (.vNum m) then .vNum m else p3ExtractGo props rest (.vNum m)
    | some (.numberP none) => p3ExtractGo props rest .vNull
    | some (.richTextP runs) =>
      if jsTruthy (.vStr (runs.head?.getD [])) then .vStr (runs.head?.getD [])
      else p3ExtractGo props rest (.vStr (runs.head?.getD []))
    | some _ => if jsTruthy acc then acc else p3ExtractGo props rest acc

/-- part_003: the `requestId` value its candidate loop leaves behind. -/
def p3ExtractId (props : Props) : JSValue :=
  p3ExtractGo props p3IdCandidates .vNull

/-- First candidate name present on the page: `if (properties[propName])`
    with a `break`. -/
def p3FindPresent (props : Props) (cands : List String) : Option String :=
  cands.find? (fun n => (lookupProp props n).isSome)

/-- part_003 `(employeeRelation || []).map(r => r.id)`: the ids of the found
    relation candidate, `[]` when none was found or the found property is not
    a relation (extractPropertyValue returns `prop.relation || []`). -/
def p3ExistingRelIds (props : Props) : Option String → List String
  | some rn =>
    match lookupProp props rn with
    | some (.relationP ids) => ids
    | _ => []
  | none => []

/-- part_003 `statusValue`: the found candidate's select/status name read via
    extractPropertyValue (an empty name collapses to null), null off-kind. -/
def p3StatusValue (props : Props) : Option String → Option (List Char)
  | some spn =>
    match lookupProp props spn with
    | some (.selectP (some nm)) => if nm.isEmpty then none else some nm
    | some (.statusP (some nm)) => if nm.isEmpty then none else some nm
    | _ => none
  | none => none

/-- part_003 status write: the hardcoded name 'قيد الانتظار' in the shape of
    the property's current kind; kinds other than select/status get no
    write. -/
def p3StatusWrite (props : Props) (spn : String) : Plan :=
  match lookupProp props spn with
  | some (.selectP _) => [(spn, .wSelect pendingDesired)]
  | some (.statusP _) => [(spn, .wStatus pendingDesired)]
  | _ => []

/-- Relation fragment of part_003's `updates` object: when the normalized id
    is indexed and the employee page id is not among the existing relation
    ids, the singleton relation is stored under the found candidate name — or
    under the literal key "null" when no candidate was present. -/
def p3RelPart (idx : List Char → Option String) (props : Props)
    (nid : List Char) : Plan :=
  match idx nid with
  | some empId =>
    if empId ∈ p3ExistingRelIds props (p3FindPresent props p3RelCandidates)
    then []
    else [(jsKey (p3FindPresent props p3RelCandidates), .wRelation [empId])]
  | none => []

/-- Status fragment of part_003's `updates` object: written only when a
    status candidate is present and its value is empty. -/
def p3StatusPart (props : Props) : Plan :=
  match p3FindPresent props p3StatusCandidates with
  | some spn =>
    match p3StatusValue props (some spn) with
    | some _ => []
    | none => p3StatusWrite props spn
  | none => []

/-- Per-record Update Plan of part_003 `NotionSync.syncLeaveRequests`: empty
    when the extracted id does not normalize (the record is skipped);
    otherwise the relation fragment followed by the status fragment. -/
def part003Plan (idx : List Char → Option String) (props : Props) : Plan :=
  match normalizeIdNumber (p3ExtractId props) with
  | none => []
  | some nid => p3RelPart idx props nid ++ p3StatusPart props

/- ## part_003 reconciliation lemmas -/

theorem find?_ext {α : Type} (p q : α → Bool) :
    ∀ l : List α, (∀ a ∈ l, p a = q a) → l.find? p = l.find? q := by
  intro l
  induction l with
  | nil => intro _; rfl
  | cons a t ih =>
    intro h
    rw [List.find?_cons, List.find?_cons, h a (by simp)]
    cases q a with
    | true => rfl
    | false => exact ih (fun x hx => h x (by simp [hx]))

theorem find?_mem_pred {α : Type} (p : α → Bool) :
    ∀ (l : List α) (a : α), l.find? p = some a → a ∈ l ∧ p a = true := by
  intro l
  induction l with
  | nil => intro a h; simp at h
  | cons x t ih =>
    intro a h
    rw [List.find?_cons] at h
    cases hp : p x with
    | true =>
      rw [hp] at h
      dsimp only at h
      injection h with hxa
      subst hxa
      exact ⟨by simp, hp⟩
    | false =>
      rw [hp] at h
      dsimp only at h
      obtain ⟨hm, hpa⟩ := ih a h
      exact ⟨by simp [hm], hpa⟩

theorem relCand_ne_id : ∀ r ∈ p3RelCandidates, ∀ n ∈ p3IdCandidates, n ≠ r := by
  decide

theorem relCand_ne_status :
    ∀ r ∈ p3RelCandidates, ∀ n ∈ p3StatusCandidates, n ≠ r := by
  decide

theorem statusCand_ne_id :
    ∀ s ∈ p3StatusCandidates, ∀ n ∈ p3IdCandidates, n ≠ s := by
  decide

theorem statusCand_notin_rel : ∀ s ∈ p3StatusCandidates, s ∉ p3RelCandidates := by
  decide

theorem nullKey_ne_id : ∀ n ∈ p3IdCandidates, n ≠ "null" := by
  decide

theorem nullKey_notin_rel : "null" ∉ p3RelCandidates := by
  decide

theorem p3ExtractGo_setProp (props : Props) (k : String) (v : PropVal) :
    ∀ (cands : List String), (∀ n ∈ cands, n ≠ k) → ∀ acc,
      p3ExtractGo (setProp props k v) cands acc = p3ExtractGo props cands acc := by
  intro cands
  induction cands with
  | nil => intro _ acc; rfl
  | cons name rest ih =>
    intro h acc
    have hk : name ≠ k := h name (by simp)
    have hrest : ∀ n ∈ rest, n ≠ k := fun n hn => h n (by simp [hn])
    unfold p3ExtractGo
    rw [lookupProp_setProp_ne props k v name hk]
    cases hl : lookupProp props name with
    | none => exact ih hrest acc
    | some p =>
      cases p with
      | titleP runs =>
        dsimp only
        split
        · rfl
        · exact ih hrest acc
      | richTextP runs =>
        dsimp only
        split
        · rfl
        · exact ih hrest _
      | numberP n =>
        cases n with
        | some m =>
          dsimp only
          split
          · rfl
          · exact ih hrest _
        | none => exact ih hrest _
      | phoneP sv =>
        dsimp only
        split
        · rfl
        · exact ih hrest acc
      | formulaP f =>
        dsimp only
        split
        · rfl
        · exact ih hrest acc
      | selectP sv =>
        dsimp only
        split
        · rfl
        · exact ih hrest acc
      | statusP sv =>
        dsimp only
        split
        · rfl
        · exact ih hrest acc
      | relationP ids =>
        dsimp only
        split
        · rfl
        · exact ih hrest acc
      | rollupP r =>
        dsimp only
        split
        · rfl
        · exact ih hrest acc
      | otherP =>
        dsimp only
        split
        · rfl
        · exact ih hrest acc

theorem p3ExtractId_setProp (props : Props) (k : String) (v : PropVal)
    (h : ∀ n ∈ p3IdCandidates, n ≠ k) :
    p3ExtractId (setProp props k v) = p3ExtractId props :=
  p3ExtractGo_setProp props k v p3IdCandidates h .vNull

theorem p3FindPresent_setProp (props : Props) (k : String) (v : PropVal)
    (cands : List String)
    (h : k ∉ cands ∨ (lookupProp props k).isSome = true) :
    p3FindPresent (setProp props k v) cands = p3FindPresent props cands := by
  unfold p3FindPresent
  apply find?_ext
  intro n hn
  dsimp only
  by_cases hnk : n = k
  · subst hnk
    rcases h with h | h
    · exact absurd hn h
    · rw [lookupProp_setProp_self, h]
      rfl
  · rw [lookupProp_setProp_ne props k v n hnk]

theorem p3StatusPart_setProp_other (props : Props) (k : String) (v : PropVal)
    (h : ∀ n ∈ p3StatusCandidates, n ≠ k) :
    p3StatusPart (setProp props k v) = p3StatusPart props := by
  have hnotin : k ∉ p3StatusCandidates := fun hk => (h k hk) rfl
  unfold p3StatusPart
  rw [p3FindPresent_setProp props k v p3StatusCandidates (Or.inl hnotin)]
  cases hsf : p3FindPresent props p3StatusCandidates with
  | none => rfl
  | some spn =>
    have hspn : spn ∈ p3StatusCandidates :=
      (find?_mem_pred (fun n => (lookupProp props n).isSome)
        p3StatusCandidates spn hsf).1
    have hne : spn ≠ k := h spn hspn
    dsimp only
    unfold p3StatusValue p3StatusWrite
    dsimp only
    rw [lookupProp_setProp_ne props k v spn hne]

theorem p3StatusValue_after_select (props2 : Props) (spn : String) :
    p3StatusValue (setProp props2 spn (PropVal.selectP (some pendingDesired)))
      (some spn) = some pendingDesired := by
  unfold p3StatusValue
  dsimp only
  rw [lookupProp_setProp_self]
  have hne : pendingDesired.isEmpty = false := by decide
  simp [hne]

theorem p3StatusValue_after_status (props2 : Props) (spn : String) :
    p3StatusValue (setProp props2 spn (PropVal.statusP (some pendingDesired)))
      (some spn) = some pendingDesired := by
  unfold p3StatusValue
  dsimp only
  rw [lookupProp_setProp_self]
  have hne : pendingDesired.isEmpty = false := by decide
  simp [hne]

theorem p3StatusPart_shape (props2 : Props) :
    p3StatusPart props2 = [] ∨
    ∃ spn w, spn ∈ p3StatusCandidates ∧ p3StatusPart props2 = [(spn, w)] := by
  cases hsf : p3FindPresent props2 p3StatusCandidates with
  | none =>
    left
    unfold p3StatusPart
    rw [hsf]
  | some spn =>
    have hsmem : spn ∈ p3StatusCandidates :=
      (find?_mem_pred (fun n => (lookupProp props2 n).isSome)
        p3StatusCandidates spn hsf).1
    cases hsv : p3StatusValue props2 (some spn) with
    | some nm =>
      left
      unfold p3StatusPart
      rw [hsf]
      dsimp only
      rw [hsv]
    | none =>
      cases hl : lookupProp props2 spn with
      | none =>
        left
        unfold p3StatusPart
        rw [hsf]
        dsimp only
        rw [hsv]
        dsimp only
        unfold p3StatusWrite
        rw [hl]
      | some p =>
        cases p
        case selectP vv =>
          right
          refine ⟨spn, PropWrite.wSelect pendingDesired, hsmem, ?_⟩
          unfold p3StatusPart
          rw [hsf]
          dsimp only
          rw [hsv]
          dsimp only
          unfold p3StatusWrite
          rw [hl]
        case statusP vv =>
          right
          refine ⟨spn, PropWrite.wStatus pendingDesired, hsmem, ?_⟩
          unfold p3StatusPart
          rw [hsf]
          dsimp only
          rw [hsv]
          dsimp only
          unfold p3StatusWrite
          rw [hl]
        all_goals
          left
          unfold p3StatusPart
          rw [hsf]
          dsimp only
          rw [hsv]
          dsimp only
          unfold p3StatusWrite
          rw [hl]

theorem p3StatusPart_after_self (props2 : Props) (spn : String) (w : PropWrite)
    (hsp : p3StatusPart props2 = [(spn, w)]) :
    p3StatusPart (setProp props2 spn (applyWrite w)) = [] := by
  unfold p3StatusPart at hsp
  cases hsf : p3FindPresent props2 p3StatusCandidates with
  | none =>
    rw [hsf] at hsp
    simp at hsp
  | some spn2 =>
    rw [hsf] at hsp
    dsimp only at hsp
    have hpres2 : (lookupProp props2 spn2).isSome = true :=
      (find?_mem_pred (fun n => (lookupProp props2 n).isSome)
        p3StatusCandidates spn2 hsf).2
    cases hsv : p3StatusValue props2 (some spn2) with
    | some nm =>
      rw [hsv] at hsp
      simp at hsp
    | none =>
      rw [hsv] at hsp
      dsimp only at hsp
      unfold p3StatusWrite at hsp
      cases hl : lookupProp props2 spn2 with
      | none =>
        rw [hl] at hsp
        simp at hsp
      | some p =>
        rw [hl] at hsp
        cases p
        case selectP vv =>
          dsimp only at hsp
          have h12 : spn2 = spn ∧ PropWrite.wSelect pendingDesired = w := by
            simpa using hsp
          obtain ⟨h1, h2⟩ := h12
          rw [← h1, ← h2]
          rw [show applyWrite (PropWrite.wSelect pendingDesired) =
              PropVal.selectP (some pendingDesired) from rfl]
          unfold p3StatusPart
          rw [p3FindPresent_setProp props2 spn2 _ p3StatusCandidates
              (Or.inr hpres2), hsf]
          dsimp only
          rw [p3StatusValue_after_select props2 spn2]
        case statusP vv =>
          dsimp only at hsp
          have h12 : spn2 = spn ∧ PropWrite.wStatus pendingDesired = w := by
            simpa using hsp
          obtain ⟨h1, h2⟩ := h12
          rw [← h1, ← h2]
          rw [show applyWrite (PropWrite.wStatus pendingDesired) =
              PropVal.statusP (some pendingDesired) from rfl]
          unfold p3StatusPart
          rw [p3FindPresent_setProp props2 spn2 _ p3StatusCandidates
              (Or.inr hpres2), hsf]
          dsimp only
          rw [p3StatusValue_after_status props2 spn2]
        all_goals
          dsimp only at hsp
          simp at hsp

theorem part003_idem (idx : List Char → Option String) (props : Props)
    (rn : String) (hrel : p3FindPresent props p3RelCandidates = some rn) :
    part003Plan idx (applyPlan (part003Plan idx props) props) = [] := by
  obtain ⟨hrnmem, hrnpres⟩ :=
    find?_mem_pred (fun n => (lookupProp props n).isSome) p3RelCandidates rn hrel
  have hIdNeRn : ∀ n ∈ p3IdCandidates, n ≠ rn := relCand_ne_id rn hrnmem
  have hStNeRn : ∀ n ∈ p3StatusCandidates, n ≠ rn := relCand_ne_status rn hrnmem
  cases hnid : normalizeIdNumber (p3ExtractId props) with
  | none =>
    have hplan : part003Plan idx props = [] := by
      unfold part003Plan
      rw [hnid]
    rw [hplan]
    show part003Plan idx props = []
    exact hplan
  | some nid =>
    rcases p3StatusPart_shape props with hsp | ⟨spn, w, hsmem, hsp⟩
    · cases hmap : idx nid with
      | none =>
        have hrp : p3RelPart idx props nid = [] := by
          unfold p3RelPart
          rw [hmap]
        have hplan : part003Plan idx props = [] := by
          unfold part003Plan
          rw [hnid]
          dsimp only
          simp [hrp, hsp]
        rw [hplan]
        show part003Plan idx props = []
        exact hplan
      | some empId =>
        by_cases hin :
            empId ∈ p3ExistingRelIds props (p3FindPresent props p3RelCandidates)
        · have hrp : p3RelPart idx props nid = [] := by
            unfold p3RelPart
            rw [hmap]
            dsimp only
            rw [if_pos hin]
          have hplan : part003Plan idx props = [] := by
            unfold part003Plan
            rw [hnid]
            dsimp only
            simp [hrp, hsp]
          rw [hplan]
          show part003Plan idx props = []
          exact hplan
        · have hrp : p3RelPart idx props nid = [(rn, .wRelation [empId])] := by
            unfold p3RelPart
            rw [hmap]
            dsimp only
            rw [if_neg hin, hrel]
            rfl
          have hplan : part003Plan idx props = [(rn, .wRelation [empId])] := by
            unfold part003Plan
            rw [hnid]
            dsimp only
            simp [hrp, hsp]
          rw [hplan]
          show part003Plan idx (setProp props rn (PropVal.relationP [empId])) = []
          have hE : p3ExtractId (setProp props rn (PropVal.relationP [empId])) =
              p3ExtractId props :=
            p3ExtractId_setProp props rn _ hIdNeRn
          have hF : p3FindPresent (setProp props rn (PropVal.relationP [empId]))
              p3RelCandidates = some rn := by
            rw [p3FindPresent_setProp props rn _ p3RelCandidates (Or.inr hrnpres)]
            exact hrel
          have hL : lookupProp (setProp props rn (PropVal.relationP [empId])) rn =
              some (PropVal.relationP [empId]) :=
            lookupProp_setProp_self props rn _
          have hmem2 : empId ∈ p3ExistingRelIds
              (setProp props rn (PropVal.relationP [empId]))
              (p3FindPresent (setProp props rn (PropVal.relationP [empId]))
                p3RelCandidates) := by
            rw [hF]
            unfold p3ExistingRelIds
            dsimp only
            rw [hL]
            simp
          have hrp2 : p3RelPart idx
              (setProp props rn (PropVal.relationP [empId])) nid = [] := by
            unfold p3RelPart
            rw [hmap]
            dsimp only
            rw [if_pos hmem2]
          have hsp2 : p3StatusPart
              (setProp props rn (PropVal.relationP [empId])) = [] := by
            rw [p3StatusPart_setProp_other props rn _ hStNeRn]
            exact hsp
          unfold part003Plan
          rw [hE, hnid]
          dsimp only
          simp [hrp2, hsp2]
    · have hspNeRn : spn ≠ rn := relCand_ne_status rn hrnmem spn hsmem
      have hIdNeSpn : ∀ n ∈ p3IdCandidates, n ≠ spn := statusCand_ne_id spn hsmem
      have hSpNotRel : spn ∉ p3RelCandidates := statusCand_notin_rel spn hsmem
      cases hmap : idx nid with
      | none =>
        have hrp : p3RelPart idx props nid = [] := by
          unfold p3RelPart
          rw [hmap]
        have hplan : part003Plan idx props = [(spn, w)] := by
          unfold part003Plan
          rw [hnid]
          dsimp only
          simp [hrp, hsp]
        rw [hplan]
        show part003Plan idx (setProp props spn (applyWrite w)) = []
        have hE : p3ExtractId (setProp props spn (applyWrite w)) =
            p3ExtractId props :=
          p3ExtractId_setProp props spn _ hIdNeSpn
        have hrp2 : p3RelPart idx (setProp props spn (applyWrite w)) nid = [] := by
          unfold p3RelPart
          rw [hmap]
        have hsp2 : p3StatusPart (setProp props spn (applyWrite w)) = [] :=
          p3StatusPart_after_self props spn w hsp
        unfold part003Plan
        rw [hE, hnid]
        dsimp only
        simp [hrp2, hsp2]
      | some empId =>
        by_cases hin :
            empId ∈ p3ExistingRelIds props (p3FindPresent props p3RelCandidates)
        · have hrp : p3RelPart idx props nid = [] := by
            unfold p3RelPart
            rw [hmap]
            dsimp only
            rw [if_pos hin]
          have hplan : part003Plan idx props = [(spn, w)] := by
            unfold part003Plan
            rw [hnid]
            dsimp only
            simp [hrp, hsp]
          rw [hplan]
          show part003Plan idx (setProp props spn (applyWrite w)) = []
          have hE : p3ExtractId (setProp props spn (applyWrite w)) =
              p3ExtractId props :=
            p3ExtractId_setProp props spn _ hIdNeSpn
          have hF : p3FindPresent (setProp props spn (applyWrite w))
              p3RelCandidates = some rn := by
            rw [p3FindPresent_setProp props spn _ p3RelCandidates
                (Or.inl hSpNotRel)]
            exact hrel
          have hLrn : lookupProp (setProp props spn (applyWrite w)) rn =
              lookupProp props rn :=
            lookupProp_setProp_ne props spn (applyWrite w) rn
              (fun he => hspNeRn he.symm)
          have hin2 : empId ∈ p3ExistingRelIds props (some rn) := by
            rw [hrel] at hin
            exact hin
          have hmem2 : empId ∈ p3ExistingRelIds (setProp props spn (applyWrite w))
              (p3FindPresent (setProp props spn (applyWrite w))
                p3RelCandidates) := by
            rw [hF]
            have hEq : p3ExistingRelIds (setProp props spn (applyWrite w))
                (some rn) = p3ExistingRelIds props (some rn) := by
              unfold p3ExistingRelIds
              dsimp only
              rw [hLrn]
            rw [hEq]
            exact hin2
          have hrp2 : p3RelPart idx (setProp props spn (applyWrite w)) nid
              = [] := by
            unfold p3RelPart
            rw [hmap]
            dsimp only
            rw [if_pos hmem2]
          have hsp2 : p3StatusPart (setProp props spn (applyWrite w)) = [] :=
            p3StatusPart_after_self props spn w hsp
          unfold part003Plan
          rw [hE, hnid]
          dsimp only
          simp [hrp2, hsp2]
        · have hrp : p3RelPart idx props nid = [(rn, .wRelation [empId])] := by
            unfold p3RelPart
            rw [hmap]
            dsimp only
            rw [if_neg hin, hrel]
            rfl
          have hplan : part003Plan idx props =
              [(rn, .wRelation [empId]), (spn, w)] := by
            unfold part003Plan
            rw [hnid]
            dsimp only
            simp [hrp, hsp]
          rw [hplan]
          show part003Plan idx
              (setProp (setProp props rn (PropVal.relationP [empId])) spn
                (applyWrite w)) = []
          have hE : p3ExtractId
              (setProp (setProp props rn (PropVal.relationP [empId])) spn
                (applyWrite w)) = p3ExtractId props := by
            rw [p3ExtractId_setProp (setProp props rn (PropVal.relationP [empId]))
                spn (applyWrite w) hIdNeSpn,
              p3ExtractId_setProp props rn (PropVal.relationP [empId]) hIdNeRn]
          have hF : p3FindPresent
              (setProp (setProp props rn (PropVal.relationP [empId])) spn
                (applyWrite w)) p3RelCandidates = some rn := by
            rw [p3FindPresent_setProp (setProp props rn (PropVal.relationP [empId]))
                spn (applyWrite w) p3RelCandidates (Or.inl hSpNotRel),
              p3FindPresent_setProp props rn (PropVal.relationP [empId])
                p3RelCandidates (Or.inr hrnpres)]
            exact hrel
          have hLrn : lookupProp
              (setProp (setProp props rn (PropVal.relationP [empId])) spn
                (applyWrite w)) rn = some (PropVal.relationP [empId]) := by
            rw [lookupProp_setProp_ne (setProp props rn (PropVal.relationP [empId]))
                spn (applyWrite w) rn (fun he => hspNeRn he.symm)]
            exact lookupProp_setProp_self props rn _
          have hmem2 : empId ∈ p3ExistingRelIds
              (setProp (setProp props rn (PropVal.relationP [empId])) spn
                (applyWrite w))
              (p3FindPresent
                (setProp (setProp props rn (PropVal.relationP [empId])) spn
                  (applyWrite w)) p3RelCandidates) := by
            rw [hF]
            unfold p3ExistingRelIds
            dsimp only
            rw [hLrn]
            simp
          have hrp2 : p3RelPart idx
              (setProp (setProp props rn (PropVal.relationP [empId])) spn
                (applyWrite w)) nid = [] := by
            unfold p3RelPart
            rw [hmap]
            dsimp only
            rw [if_pos hmem2]
          have hsp1 : p3StatusPart (setProp props rn (PropVal.relationP [empId]))
              = [(spn, w)] := by
            rw [p3StatusPart_setProp_other props rn _ hStNeRn]
            exact hsp
          have hsp2 : p3StatusPart
              (setProp (setProp props rn (PropVal.relationP [empId])) spn
                (applyWrite w)) = [] :=
            p3StatusPart_after_self (setProp props rn (PropVal.relationP [empId]))
              spn w hsp1
          unfold part003Plan
          rw [hE, hnid]
          dsimp only
          simp [hrp2, hsp2]

theorem part003_null_key_persists (idx : List Char → Option String)
    (props : Props) (nid : List Char) (empId : String)
    (hrel : p3FindPresent props p3RelCandidates = none)
    (hnid : normalizeIdNumber (p3ExtractId props) = some nid)
    (hmap : idx nid = some empId) :
    part003Plan idx (applyPlan (part003Plan idx props) props) ≠ [] := by
  have hrp : p3RelPart idx props nid = [("null", .wRelation [empId])] := by
    unfold p3RelPart
    rw [hmap]
    dsimp only
    rw [hrel]
    rw [if_neg (by simp [p3ExistingRelIds])]
    rfl
  rcases p3StatusPart_shape props with hsp | ⟨spn, w, hsmem, hsp⟩
  · have hplan : part003Plan idx props = [("null", .wRelation [empId])] := by
      unfold part003Plan
      rw [hnid]
      dsimp only
      simp [hrp, hsp]
    rw [hplan]
    show part003Plan idx (setProp props "null" (PropVal.relationP [empId])) ≠ []
    have hE : p3ExtractId (setProp props "null" (PropVal.relationP [empId])) =
        p3ExtractId props :=
      p3ExtractId_setProp props "null" _ nullKey_ne_id
    have hF : p3FindPresent (setProp props "null" (PropVal.relationP [empId]))
        p3RelCandidates = none := by
      rw [p3FindPresent_setProp props "null" _ p3RelCandidates
          (Or.inl nullKey_notin_rel)]
      exact hrel
    have hrp2 : p3RelPart idx (setProp props "null" (PropVal.relationP [empId]))
        nid = [("null", .wRelation [empId])] := by
      unfold p3RelPart
      rw [hmap]
      dsimp only
      rw [hF]
      rw [if_neg (by simp [p3ExistingRelIds])]
      rfl
    unfold part003Plan
    rw [hE, hnid]
    dsimp only
    rw [hrp2]
    simp
  · have hIdNeSpn : ∀ n ∈ p3IdCandidates, n ≠ spn := statusCand_ne_id spn hsmem
    have hSpNotRel : spn ∉ p3RelCandidates := statusCand_notin_rel spn hsmem
    have hplan : part003Plan idx props =
        [("null", .wRelation [empId]), (spn, w)] := by
      unfold part003Plan
      rw [hnid]
      dsimp only
      simp [hrp, hsp]
    rw [hplan]
    show part003Plan idx
        (setProp (setProp props "null" (PropVal.relationP [empId])) spn
          (applyWrite w)) ≠ []
    have hE : p3ExtractId
        (setProp (setProp props "null" (PropVal.relationP [empId])) spn
          (applyWrite w)) = p3ExtractId props := by
      rw [p3ExtractId_setProp (setProp props "null" (PropVal.relationP [empId]))
          spn (applyWrite w) hIdNeSpn,
        p3ExtractId_setProp props "null" (PropVal.relationP [empId]) nullKey_ne_id]
    have hF : p3FindPresent
        (setProp (setProp props "null" (PropVal.relationP [empId])) spn
          (applyWrite w)) p3RelCandidates = none := by
      rw [p3FindPresent_setProp (setProp props "null" (PropVal.relationP [empId]))
          spn (applyWrite w) p3RelCandidates (Or.inl hSpNotRel),
        p3FindPresent_setProp props "null" (PropVal.relationP [empId])
          p3RelCandidates (Or.inl nullKey_notin_rel)]
      exact hrel
    have hrp2 : p3RelPart idx
        (setProp (setProp props "null" (PropVal.relationP [empId])) spn
          (applyWrite w)) nid = [("null", .wRelation [empId])] := by
      unfold p3RelPart
      rw [hmap]
      dsimp only
      rw [hF]
      rw [if_neg (by simp [p3ExistingRelIds])]
      rfl
    unfold part003Plan
    rw [hE, hnid]
    dsimp only
    rw [hrp2]
    simp

/-- Employee index for the part_003 records: one employee page "emp-1" under
    the normalized key "123456789". -/
def c1p3Idx : List Char → Option String :=
  fun s => if s = "123456789".data then some "emp-1" else none

/-- A part_003 leave request carrying a Western-digit id and a set status but
    none of the candidate relation properties. -/
def c1p3Props : Props :=
  [("رقم الهوية", .richTextP ["123456789".data]),
   ("حالة الطلب", .statusP (some "موافقة".data))]

/-- A part_003 leave request with a present candidate relation property, an
    empty relation value, and an unset status. -/
def c1p3RelProps : Props :=
  [("رقم الهوية", .richTextP ["123456789".data]),
   ("اسم الموظف", .relationP []),
   ("حالة الطلب", .statusP none)]

/-- C1 counterexample: a part_003 leave request carrying a valid id but none
    of the candidate relation properties. Its relation update is keyed by the
    literal string "null" (JS `updates[relationPropName]` with a null key),
    and after applying the computed plan the second pass over the unchanged
    result recomputes the very same non-empty plan, so
    `NotionSync.syncLeaveRequests` is not idempotent as the claim states. -/
theorem C1_counterexample :
    p3FindPresent c1p3Props p3RelCandidates = none ∧
    part003Plan c1p3Idx c1p3Props = [("null", .wRelation ["emp-1"])] ∧
    applyPlan (part003Plan c1p3Idx c1p3Props) c1p3Props =
      c1p3Props ++ [("null", .relationP ["emp-1"])] ∧
    part003Plan c1p3Idx
      (applyPlan (part003Plan c1p3Idx c1p3Props) c1p3Props) =
      [("null", .wRelation ["emp-1"])] :=
  ⟨by decide, by decide, by decide, by decide⟩

/-- C1: reconciliation is idempotent for the sync.js reconciler — applying a
    record's computed plan and re-running computes an empty Update Plan, and
    an already-linked, already-statused record gets an empty plan — under the
    store invariants that the detected relation/status names are distinct and
    page values follow the schema. The part_003 `syncLeaveRequests` variant
    is idempotent exactly on records where some candidate relation property
    is present: its second pass then computes an empty plan; but on a matched
    record with no candidate relation property the update is keyed by the
    literal string "null" and the second pass recomputes a non-empty plan. -/
theorem C1_amended :
    (∀ (ctx : SyncCtx) (props : Props),
      relStatusDistinct ctx = true →
      wellTypedProps ctx props = true →
      recPlan ctx (applyPlan (recPlan ctx props) props) = [] ∧
      (∀ empId rn rest sp,
        recMatched ctx props = some empId →
        ctx.relationPropName = some rn →
        lookupProp props rn = some (.relationP (empId :: rest)) →
        ctx.statusProp = some sp →
        statusSet sp props = true →
        recPlan ctx props = [])) ∧
    (∀ (idx : List Char → Option String) (props : Props) (rn : String),
      p3FindPresent props p3RelCandidates = some rn →
      part003Plan idx (applyPlan (part003Plan idx props) props) = []) ∧
    (∀ (idx : List Char → Option String) (props : Props)
        (nid : List Char) (empId : String),
      p3FindPresent props p3RelCandidates = none →
      normalizeIdNumber (p3ExtractId props) = some nid →
      idx nid = some empId →
      part003Plan idx (applyPlan (part003Plan idx props) props) ≠ []) :=
  ⟨fun ctx props hd hw => sync_reconcile_idempotent ctx props hd hw,
   fun idx props rn h => part003_idem idx props rn h,
   fun idx props nid empId h1 h2 h3 =>
     part003_null_key_persists idx props nid empId h1 h2 h3⟩

/-- Witness for C1: the sync.js half at a record needing both writes, the
    part_003 idempotent half at a record with a present candidate relation
    property, and the part_003 failing half at a record with none. -/
theorem C1_witness :
    (relStatusDistinct c1Ctx = true ∧
     wellTypedProps c1Ctx c1Props = true ∧
     recPlan c1Ctx c1Props ≠ [] ∧
     recPlan c1Ctx (applyPlan (recPlan c1Ctx c1Props) c1Props) = []) ∧
    (p3FindPresent c1p3RelProps p3RelCandidates = some "اسم الموظف" ∧
     part003Plan c1p3Idx c1p3RelProps ≠ [] ∧
     part003Plan c1p3Idx
       (applyPlan (part003Plan c1p3Idx c1p3RelProps) c1p3RelProps) = []) ∧
    (p3FindPresent c1p3Props p3RelCandidates = none ∧
     part003Plan c1p3Idx
       (applyPlan (part003Plan c1p3Idx c1p3Props) c1p3Props) ≠ []) := by
  refine ⟨⟨by decide, by decide, by decide, ?_⟩,
          ⟨by decide, by decide, ?_⟩, ⟨by decide, ?_⟩⟩
  · exact (C1_amended.1 c1Ctx c1Props (by decide) (by decide)).1
  · exact C1_amended.2.1 c1p3Idx c1p3RelProps "اسم الموظف" (by decide)
  · exact C1_amended.2.2 c1p3Idx c1p3Props "123456789".data "emp-1"
      (by decide) (by decide) (by decide)

/- ## Claims C3 and C7: the retry wrappers -/

/-- The fields of a caught error that the retry wrappers inspect. -/
structure NotionError where
  status? : Option Nat
  bodyCode? : Option String
  code? : Option String
  msgRateLimited : Bool
  deriving DecidableEq

/-- part_001 rate-limit test:
    `e?.status === 429 || e?.body?.code === 'rate_limited'`. -/
def isRateP1 (e : NotionError) : Bool :=
  e.status? = some 429 || e.bodyCode? = some "rate_limited"

/-- part_003 rate-limit test: `error.code === 'rate_limited' ||
    error.status === 429 || error.message.includes('rate_limited')`. -/
def isRateP3 (e : NotionError) : Bool :=
  e.code? = some "rate_limited" || e.status? = some 429 || e.msgRateLimited

/-- What one invocation of the wrapped call does: return a value or throw. -/
inductive CallOutcome (α : Type)
  | ok (a : α)
  | err (e : NotionError)
  deriving DecidableEq

/-- The observable outcome of one wrapper run: result, the backoff delays
    slept (ms, in order), and the number of attempts made. -/
structure RunResult (α : Type) where
  result : CallOutcome α
  delays : List Nat
  attempts : Nat
  deriving DecidableEq

/-- The placeholder for JS `undefined` thrown/returned on degenerate
    parameters (retries = 0); unreachable at the call sites' values. -/
def undefErr : NotionError := ⟨none, none, none, false⟩

/-- part_001 `withRetry` loop body from attempt `i`, with `fuel = retries − i`
    iterations left. A rate-limited failure before the last attempt sleeps
    `min(2000·(i+1), 8000)` ms and retries; ANY other failure before the last
    attempt retries immediately with no sleep; after the last attempt the
    last caught error is thrown. -/
def withRetryFuel (outcomes : Nat → CallOutcome α) (retries : Nat) :
    Nat → Nat → List Nat → Option NotionError → RunResult α
  | 0, i, acc, lastErr => ⟨.err (lastErr.getD undefErr), acc.reverse, i⟩
  | fuel + 1, i, acc, _ =>
    match outcomes i with
    | .ok a => ⟨.ok a, acc.reverse, i + 1⟩
    | .err e =>
      if isRateP1 e && decide (i < retries - 1) then
        withRetryFuel outcomes retries fuel (i + 1)
          (min (2000 * (i + 1)) 8000 :: acc) (some e)
      else withRetryFuel outcomes retries fuel (i + 1) acc (some e)

/-- One run of part_001 `withRetry fn retries`, where `outcomes i` is what the
    wrapped call does on its i-th invocation (0-based). -/
def withRetryRun (outcomes : Nat → CallOutcome α) (retries : Nat) :
    RunResult α :=
  withRetryFuel outcomes retries retries 0 [] none

/-- part_003 `apiCallWithRetry` loop body from attempt `i`, with
    `fuel = maxRetries − i` iterations left. A rate-limited failure before the
    last attempt sleeps `2^i` seconds (ms here) and retries; any other
    failure, and a rate failure on the last attempt, is re-thrown
    immediately. -/
def apiRetryFuel (outcomes : Nat → CallOutcome α) (maxRetries : Nat) :
    Nat → Nat → List Nat → RunResult α
  | 0, i, acc => ⟨.err undefErr, acc.reverse, i⟩
  | fuel + 1, i, acc =>
    match outcomes i with
    | .ok a => ⟨.ok a, acc.reverse, i + 1⟩
    | .err e =>
      if isRateP3 e && decide (i < maxRetries - 1) then
        apiRetryFuel outcomes maxRetries fuel (i + 1) (1000 * 2 ^ i :: acc)
      else ⟨.err e, acc.reverse, i + 1⟩

/-- One run of part_003 `apiCallWithRetry apiCall maxRetries`. -/
def apiRetryRun (outcomes : Nat → CallOutcome α) (maxRetries : Nat) :
    RunResult α :=
  apiRetryFuel outcomes maxRetries maxRetries 0 []

/-- A plain (non-rate-limit) failure, e.g. an auth error. -/
def plainErr : NotionError := ⟨some 401, none, none, false⟩

/-- C3 counterexample: part_001 `withRetry` (default retries = 3) does NOT
    propagate a non-rate-limit failure immediately: a call that fails with a
    plain error on the first attempt and succeeds on the second yields success
    after two attempts, where the claim demands the failure be re-raised after
    exactly one attempt. -/
theorem C3_counterexample :
    isRateP1 plainErr = false ∧
    withRetryRun (fun i => if i = 0 then .err plainErr else .ok 7) 3 =
      ⟨.ok 7, [], 2⟩ := by
  refine ⟨by decide, by decide⟩

/-- C3 amended: part_003 `apiCallWithRetry` propagates every non-rate-limit
    failure immediately after exactly one attempt with no sleep; but part_001
    `withRetry` retries ANY failure (with no sleep when it is not
    rate-limited) up to its 3-attempt ceiling and re-raises the LAST failure
    only on exhaustion. -/
theorem C3_amended :
    (∀ (α : Type) (outcomes : Nat → CallOutcome α) (e : NotionError),
      outcomes 0 = .err e → isRateP3 e = false →
      apiRetryRun outcomes 5 = ⟨.err e, [], 1⟩) ∧
    (∀ (α : Type) (outcomes : Nat → CallOutcome α) (e : NotionError) (a : α),
      outcomes 0 = .err e → isRateP1 e = false → outcomes 1 = .ok a →
      withRetryRun outcomes 3 = ⟨.ok a, [], 2⟩) ∧
    (∀ (α : Type) (outcomes : Nat → CallOutcome α) (e0 e1 e2 : NotionError),
      outcomes 0 = .err e0 → outcomes 1 = .err e1 → outcomes 2 = .err e2 →
      isRateP1 e0 = false → isRateP1 e1 = false → isRateP1 e2 = false →
      withRetryRun outcomes 3 = ⟨.err e2, [], 3⟩) := by
  refine ⟨?_, ?_, ?_⟩
  · intro α outcomes e h0 hnr
    simp [apiRetryRun, apiRetryFuel, h0, hnr]
  · intro α outcomes e a h0 hnr h1
    simp [withRetryRun, withRetryFuel, h0, hnr, h1]
  · intro α outcomes e0 e1 e2 h0 h1 h2 r0 r1 r2
    simp [withRetryRun, withRetryFuel, h0, h1, h2, r0, r1, r2]

/-- Witness for C3_amended at concrete outcome schedules. -/
theorem C3_amended_witness :
    apiRetryRun (fun _ => (CallOutcome.err plainErr : CallOutcome Nat)) 5 = ⟨.err plainErr, [], 1⟩ ∧
    withRetryRun (fun i => if i = 0 then .err plainErr else .ok 7) 3 =
      ⟨.ok 7, [], 2⟩ ∧
    withRetryRun (fun _ => (CallOutcome.err plainErr : CallOutcome Nat)) 3 =
      ⟨.err plainErr, [], 3⟩ := by
  refine ⟨?_, ?_, ?_⟩
  · exact C3_amended.1 Nat (fun _ => (CallOutcome.err plainErr : CallOutcome Nat)) plainErr rfl (by decide)
  · exact C3_amended.2.1 Nat (fun i => if i = 0 then .err plainErr else .ok 7)
      plainErr 7 rfl (by decide) rfl
  · exact C3_amended.2.2 Nat (fun _ => (CallOutcome.err plainErr : CallOutcome Nat)) plainErr plainErr plainErr
      rfl rfl rfl (by decide) (by decide) (by decide)

/-- C7: on consecutive rate-limit failures part_003 `apiCallWithRetry`
    (maxRetries = 5) sleeps 1, 2, 4, 8 seconds — each delay double the
    previous, strictly increasing — makes at most 5 attempts and re-raises
    the final rate-limit failure on exhaustion; part_001 `withRetry`
    (retries = 3) sleeps 2000 then 4000 ms (doubling, strictly increasing,
    capped by the `min(…, 8000)` in its formula), makes at most 3 attempts
    and re-raises the final rate-limit failure; in the spec scenario
    (rate-limit on attempts 1 and 2, success on 3) both succeed with
    monotonically increasing observed delays. -/
theorem C7_backoff :
    (∀ (α : Type) (outcomes : Nat → CallOutcome α) (e0 e1 e2 e3 e4 : NotionError),
      outcomes 0 = .err e0 → outcomes 1 = .err e1 → outcomes 2 = .err e2 →
      outcomes 3 = .err e3 → outcomes 4 = .err e4 →
      isRateP3 e0 = true → isRateP3 e1 = true → isRateP3 e2 = true →
      isRateP3 e3 = true → isRateP3 e4 = true →
      apiRetryRun outcomes 5 = ⟨.err e4, [1000, 2000, 4000, 8000], 5⟩) ∧
    (∀ (α : Type) (outcomes : Nat → CallOutcome α) (e0 e1 : NotionError) (a : α),
      outcomes 0 = .err e0 → outcomes 1 = .err e1 → outcomes 2 = .ok a →
      isRateP3 e0 = true → isRateP3 e1 = true →
      apiRetryRun outcomes 5 = ⟨.ok a, [1000, 2000], 3⟩) ∧
    (∀ (α : Type) (outcomes : Nat → CallOutcome α) (e0 e1 e2 : NotionError),
      outcomes 0 = .err e0 → outcomes 1 = .err e1 → outcomes 2 = .err e2 →
      isRateP1 e0 = true → isRateP1 e1 = true → isRateP1 e2 = true →
      withRetryRun outcomes 3 = ⟨.err e2, [2000, 4000], 3⟩) ∧
    (∀ (α : Type) (outcomes : Nat → CallOutcome α) (e0 e1 : NotionError) (a : α),
      outcomes 0 = .err e0 → outcomes 1 = .err e1 → outcomes 2 = .ok a →
      isRateP1 e0 = true → isRateP1 e1 = true →
      withRetryRun outcomes 3 = ⟨.ok a, [2000, 4000], 3⟩) ∧
    List.Chain' (fun d1 d2 => d2 = 2 * d1) [1000, 2000, 4000, 8000] ∧
    List.Chain' (fun d1 d2 => d1 < d2) [1000, 2000, 4000, 8000] ∧
    List.Chain' (fun d1 d2 => d2 = 2 * d1) [2000, 4000] ∧
    List.Chain' (fun d1 d2 => d1 < d2) [2000, 4000] := by
  refine ⟨?_, ?_, ?_, ?_, by norm_num [List.chain'_cons], by norm_num [List.chain'_cons], by norm_num [List.chain'_cons], by norm_num [List.chain'_cons]⟩
  · intro α outcomes e0 e1 e2 e3 e4 h0 h1 h2 h3 h4 r0 r1 r2 r3 r4
    simp [apiRetryRun, apiRetryFuel, h0, h1, h2, h3, h4, r0, r1, r2, r3, r4]
  · intro α outcomes e0 e1 a h0 h1 h2 r0 r1
    simp [apiRetryRun, apiRetryFuel, h0, h1, h2, r0, r1]
  · intro α outcomes e0 e1 e2 h0 h1 h2 r0 r1 r2
    simp [withRetryRun, withRetryFuel, h0, h1, h2, r0, r1, r2]
  · intro α outcomes e0 e1 a h0 h1 h2 r0 r1
    simp [withRetryRun, withRetryFuel, h0, h1, h2, r0, r1]

/-- A rate-limited failure as both wrappers recognize it. -/
def rateErr : NotionError :=
  ⟨some 429, some "rate_limited", some "rate_limited", true⟩

/-- Witness for C7_backoff at concrete outcome schedules. -/
theorem C7_backoff_witness :
    apiRetryRun (fun _ => (CallOutcome.err rateErr : CallOutcome Nat)) 5 =
      ⟨.err rateErr, [1000, 2000, 4000, 8000], 5⟩ ∧
    withRetryRun (fun i => if i < 2 then .err rateErr else .ok 9) 3 =
      ⟨.ok 9, [2000, 4000], 3⟩ := by
  constructor
  · exact C7_backoff.1 Nat (fun _ => (CallOutcome.err rateErr : CallOutcome Nat)) rateErr rateErr rateErr
      rateErr rateErr rfl rfl rfl rfl rfl (by decide) (by decide) (by decide)
      (by decide) (by decide)
  · exact C7_backoff.2.2.2.1 Nat (fun i => if i < 2 then .err rateErr else .ok 9)
      rateErr rateErr 9 rfl rfl rfl (by decide) (by decide)


/- ## Claim C5: records lacking a usable identifier -/

/-- Lift the first text run (or a missing one) to the JS scalar that
    `normalizeCivilId` receives (`prop.title?.[0]?.plain_text`). -/
def optRunVal : Option (List Char) → JSValue
  | some t => .vStr t
  | none => .vNull

/-- Lift an optional stored number to the JS scalar `normalizeCivilId`
    receives. -/
def optNumVal : Option Int → JSValue
  | some n => .vNum n
  | none => .vNull

/-- One rollup-array element as read by `getCivilIdFromProperty` /
    `readCivilId` (part_001 and part_002, identical code). -/
def rollupItemCivil : RollupItem → Option (List Char)
  | .rTitle runs => normalizeCivilId (optRunVal runs.head?)
  | .rRich runs => normalizeCivilId (optRunVal runs.head?)
  | .rNum n => normalizeCivilId (optNumVal n)
  | .rOther => none

/-- part_001 `getCivilIdFromProperty` / part_002 `readCivilId` (identical):
    dispatch on the property kind and normalize the first text run or the
    stored number; unknown kinds give null. -/
def readCivilId : Option PropVal → Option (List Char)
  | none => none
  | some p =>
    match p with
    | .titleP runs => normalizeCivilId (optRunVal runs.head?)
    | .richTextP runs => normalizeCivilId (optRunVal runs.head?)
    | .numberP n => normalizeCivilId (optNumVal n)
    | .phoneP ph => normalizeCivilId (optRunVal ph)
    | .formulaP (.fstr str) => normalizeCivilId (optRunVal str)
    | .formulaP (.fnum n) => normalizeCivilId (optNumVal n)
    | .rollupP (.rArray (item :: _)) => rollupItemCivil item
    | .rollupP (.rArray []) => none
    | .rollupP (.rNumber n) => normalizeCivilId (optNumVal n)
    | .rollupP .rOtherKind => none
    | _ => none

/-- part_002's fixed relation column name `اسم الموظف`. -/
def relPropNameP2 : String := "اسم الموظف"

/-- part_002's fixed status column name `حالة الطلب`. -/
def statusPropNameP2 : String := "حالة الطلب"

/-- part_002's identifier-column candidates for the leave table. -/
def leaveIdCandidates : List String := ["الهويه رقم", "رقم الهويه", "رقم الهوية"]

/-- part_002 `pickPropName`: the first candidate present on the row. -/
def pickPropName (props : Props) (candidates : List String) : Option String :=
  candidates.find? (fun name => (lookupProp props name).isSome)

/-- part_002 `isStatusEmpty`: missing, unset, or off-kind counts as empty. -/
def isStatusEmpty : Option PropVal → Bool
  | none => true
  | some p =>
    match p with
    | .statusP v => v.isNone
    | .selectP v => v.isNone
    | _ => true

/-- part_002 `buildStatusSet`: write shape follows the current property's
    kind, defaulting to the status shape. -/
def buildStatusSet (currentProp : Option PropVal) (name : List Char) : PropWrite :=
  match currentProp with
  | some (.statusP _) => .wStatus name
  | some (.selectP _) => .wSelect name
  | some _ => .wStatus name
  | none => .wStatus name

/-- The per-record update of part_002 `syncLeaveRequests`: no identifier
    COLUMN means skip; an identifier column whose value normalizes to null
    still gets a pending-status-only update when the status is empty;
    otherwise link (when unlinked and matched) and/or set pending status. -/
def part002Plan (employeeIndex : List Char → Option String) (props : Props) : Plan :=
  match pickPropName props leaveIdCandidates with
  | none => []
  | some leaveIdName =>
    match readCivilId (lookupProp props leaveIdName) with
    | none =>
      if isStatusEmpty (lookupProp props statusPropNameP2) then
        [(statusPropNameP2,
          buildStatusSet (lookupProp props statusPropNameP2) pendingDesired)]
      else []
    | some civil =>
        (if !(match lookupProp props relPropNameP2 with
              | some (.relationP ids) => !ids.isEmpty
              | _ => false) then
           match employeeIndex civil with
           | some empPageId => [(relPropNameP2, .wRelation [empPageId])]
           | none => []
         else []) ++
        (if isStatusEmpty (lookupProp props statusPropNameP2) then
           [(statusPropNameP2,
             buildStatusSet (lookupProp props statusPropNameP2) pendingDesired)]
         else [])

/-- A leave-request row in the `syncNotionTables` loop. -/
structure LeaveRec where
  id : String
  props : Props
  deriving DecidableEq

/-- The run counters of `syncNotionTables`. -/
structure Counts where
  updated : Nat
  skipped : Nat
  deriving DecidableEq

/-- One iteration of the `syncNotionTables` record loop: skipped records
    (no truthy id, no employee match, already reconciled) bump `skippedCount`;
    a record whose non-empty plan is applied (store accepts) bumps
    `updatedCount`; a needed-but-empty plan changes nothing. -/
def stepRecord (ctx : SyncCtx) (c : Counts) (r : LeaveRec) : Counts :=
  match recMatched ctx r.props with
  | none => ⟨c.updated, c.skipped + 1⟩
  | some empId =>
    if needsRelationUpdate ctx.relationPropName empId r.props ||
       needsStatusUpdate ctx.statusProp r.props then
      if (recPlan ctx r.props).isEmpty then c
      else ⟨c.updated + 1, c.skipped⟩
    else ⟨c.updated, c.skipped + 1⟩

/-- The whole `syncNotionTables` record loop over a page of records. -/
def processRecords (ctx : SyncCtx) (c : Counts) (rs : List LeaveRec) : Counts :=
  rs.foldl (stepRecord ctx) c

/-- The record refuting C5 for part_002: the identifier column is present but
    holds "abc" (normalizes to Absent) and the status is empty. -/
def c5Props : Props :=
  [("رقم الهوية", .richTextP ["abc".data]),
   ("حالة الطلب", .statusP none)]

/-- C5 counterexample: in part_002 `syncLeaveRequests`, a record whose
    identifier value is unnormalizable (Absent) still receives a NON-empty
    update writing its status field — contradicting the claim that no field
    of such a record is written. -/
theorem C5_counterexample :
    readCivilId (lookupProp c5Props "رقم الهوية") = none ∧
    part002Plan (fun _ => none) c5Props =
      [(statusPropNameP2, .wStatus pendingDesired)] ∧
    part002Plan (fun _ => none) c5Props ≠ [] := by
  refine ⟨by decide, by decide, by decide⟩

/-- C5 amended: in sync.js, a record with no truthy identifier (or no index
    match) gets an empty Update Plan, is counted as skipped, and the loop
    continues over the remaining records; in the part_002 variant, a record
    whose identifier COLUMN is present but whose value normalizes to Absent
    still receives a status-only update when its status is empty (and an
    empty plan only when its status is set), while a record with no
    identifier column at all is skipped entirely. -/
theorem C5_amended (ctx : SyncCtx) (props : Props) (r : LeaveRec)
    (rest : List LeaveRec) (c : Counts) (idx : List Char → Option String) :
    (recMatched ctx props = none → recPlan ctx props = []) ∧
    (recMatched ctx r.props = none →
      processRecords ctx c (r :: rest) =
        processRecords ctx ⟨c.updated, c.skipped + 1⟩ rest) ∧
    (∀ props2 idName, pickPropName props2 leaveIdCandidates = some idName →
      readCivilId (lookupProp props2 idName) = none →
      isStatusEmpty (lookupProp props2 statusPropNameP2) = true →
      part002Plan idx props2 =
        [(statusPropNameP2,
          buildStatusSet (lookupProp props2 statusPropNameP2) pendingDesired)]) ∧
    (∀ props2 idName, pickPropName props2 leaveIdCandidates = some idName →
      readCivilId (lookupProp props2 idName) = none →
      isStatusEmpty (lookupProp props2 statusPropNameP2) = false →
      part002Plan idx props2 = []) ∧
    (∀ props2, pickPropName props2 leaveIdCandidates = none →
      part002Plan idx props2 = []) := by
  refine ⟨?_, ?_, ?_, ?_, ?_⟩
  · intro h
    unfold recPlan
    rw [h]
  · intro h
    unfold processRecords
    rw [List.foldl_cons]
    unfold stepRecord
    rw [h]
  · intro props2 idName h1 h2 h3
    unfold part002Plan
    rw [h1]
    dsimp only
    rw [h2]
    dsimp only
    rw [if_pos h3]
  · intro props2 idName h1 h2 h3
    unfold part002Plan
    rw [h1]
    dsimp only
    rw [h2]
    dsimp only
    rw [if_neg (by simp [h3])]
  · intro props2 h1
    unfold part002Plan
    rw [h1]

/-- Witness for C5_amended: a no-id record is skipped-and-counted with the
    loop continuing, and the part_002 unnormalizable-id record gets the
    status-only update. -/
theorem C5_amended_witness :
    processRecords ⟨none, none, fun _ => none⟩ ⟨0, 0⟩
      [⟨"r1", [("رقم الهوية", PropVal.richTextP ["abc".data])]⟩] = ⟨0, 1⟩ ∧
    part002Plan (fun _ => none) c5Props =
      [(statusPropNameP2,
        buildStatusSet (lookupProp c5Props statusPropNameP2) pendingDesired)] := by
  constructor
  · have h := (C5_amended ⟨none, none, fun _ => none⟩ []
      ⟨"r1", [("رقم الهوية", PropVal.richTextP ["abc".data])]⟩ [] ⟨0, 0⟩
      (fun _ => none)).2.1 (by decide)
    rw [h]
    rfl
  · exact (C5_amended ⟨none, none, fun _ => none⟩ [] ⟨"r", []⟩ [] ⟨0, 0⟩
      (fun _ => none)).2.2.1 c5Props "رقم الهوية" (by decide) (by decide) (by decide)

/- ## Claim C8: duplicate canonical keys in the employee index -/

/-- Diagnostics the index builders can print: sync.js logs one generic
    added-employee line per insertion; no variant emits a collision report. -/
inductive DiagEvent
  | addedEmp (key : List Char)
  | collision (key : List Char)
  deriving DecidableEq

/-- Classifier for collision diagnostics. -/
def isCollisionEvent : DiagEvent → Bool
  | .collision _ => true
  | _ => false

/-- The employee index: canonical key → employee page id. -/
abbrev EmpIndex := List (List Char × String)

/-- JS object/Map insertion: replace the binding in place or append
    (the later write wins). -/
def setIndex : EmpIndex → List Char → String → EmpIndex
  | [], k, v => [(k, v)]
  | p :: rest, k, v => if p.1 = k then (k, v) :: rest else p :: setIndex rest k v

/-- Index lookup. -/
def lookupIndex (idx : EmpIndex) (k : List Char) : Option String :=
  (idx.find? (fun p => p.1 = k)).map (·.2)

/-- One employee row. -/
structure EmpRow where
  id : String
  props : Props
  deriving DecidableEq

/-- JS `a || b` on possibly-missing properties. -/
def jsOr (a b : Option PropVal) : Option PropVal :=
  match a with
  | some x => some x
  | none => b

/-- One row of part_001 `buildEmployeeIndex`: read the civil id from the
    configured column (falling back to `رقم الهوية`), insert when usable.
    No log line is printed in this loop. -/
def p1Step (employeeIdPropName : String) (st : EmpIndex × List DiagEvent)
    (row : EmpRow) : EmpIndex × List DiagEvent :=
  match readCivilId (jsOr (lookupProp row.props employeeIdPropName)
      (lookupProp row.props "رقم الهوية")) with
  | some civil => (setIndex st.1 civil row.id, st.2)
  | none => st

/-- part_001 `buildEmployeeIndex` over the fetched rows. -/
def buildEmployeeIndexP1 (employeeIdPropName : String) (rows : List EmpRow) :
    EmpIndex × List DiagEvent :=
  rows.foldl (p1Step employeeIdPropName) ([], [])

/-- One row of sync.js `fetchEmployees`: extract and normalize the id,
    insert when truthy, and log the generic `تم إضافة موظف` line. -/
def fetchStep (st : EmpIndex × List DiagEvent) (row : EmpRow) :
    EmpIndex × List DiagEvent :=
  match extractIdNumber row.props with
  | none => st
  | some rid =>
    if rid.isEmpty then st
    else
      (setIndex st.1 (normalizeNumber (.vStr rid)) row.id,
       st.2 ++ [.addedEmp (normalizeNumber (.vStr rid))])

/-- sync.js `fetchEmployees` over the fetched rows. -/
def fetchEmployeesRun (rows : List EmpRow) : EmpIndex × List DiagEvent :=
  rows.foldl fetchStep ([], [])

theorem mem_keys_setIndex (idx : EmpIndex) (k : List Char) (v : String) :
    ∀ a ∈ (setIndex idx k v).map Prod.fst, a ∈ idx.map Prod.fst ∨ a = k := by
  induction idx with
  | nil =>
    intro a ha
    simp [setIndex] at ha
    exact Or.inr ha
  | cons p rest ih =>
    intro a ha
    by_cases hp : p.1 = k
    · rw [setIndex, if_pos hp] at ha
      simp only [List.map_cons, List.mem_cons] at ha
      rcases ha with ha | ha
      · exact Or.inr ha
      · exact Or.inl (by simp [ha])
    · rw [setIndex, if_neg hp] at ha
      simp only [List.map_cons, List.mem_cons] at ha
      rcases ha with ha | ha
      · exact Or.inl (by simp [ha])
      · rcases ih a ha with h | h
        · exact Or.inl (by simp [h])
        · exact Or.inr h

theorem setIndex_nodup (idx : EmpIndex) (k : List Char) (v : String)
    (h : (idx.map Prod.fst).Nodup) : ((setIndex idx k v).map Prod.fst).Nodup := by
  induction idx with
  | nil => simp [setIndex]
  | cons p rest ih =>
    rw [List.map_cons, List.nodup_cons] at h
    obtain ⟨hp1, hrest⟩ := h
    by_cases hp : p.1 = k
    · rw [setIndex, if_pos hp]
      simp only [List.map_cons, List.nodup_cons]
      refine ⟨fun hc => hp1 ?_, hrest⟩
      rwa [hp]
    · rw [setIndex, if_neg hp]
      simp only [List.map_cons, List.nodup_cons]
      refine ⟨?_, ih hrest⟩
      intro hc
      rcases mem_keys_setIndex rest k v p.1 hc with hm | hm
      · exact hp1 hm
      · exact hp hm

theorem foldl_index_nodup (f : EmpIndex × List DiagEvent → EmpRow → EmpIndex × List DiagEvent)
    (hf : ∀ st row, (f st row).1 = st.1 ∨ ∃ k v, (f st row).1 = setIndex st.1 k v) :
    ∀ (rows : List EmpRow) (st : EmpIndex × List DiagEvent),
      (st.1.map Prod.fst).Nodup → (((rows.foldl f st).1).map Prod.fst).Nodup := by
  intro rows
  induction rows with
  | nil => intro st h; exact h
  | cons r rest ih =>
    intro st h
    rw [List.foldl_cons]
    apply ih
    rcases hf st r with h2 | ⟨k, v, h2⟩
    · rw [h2]; exact h
    · rw [h2]; exact setIndex_nodup _ _ _ h

theorem p1Step_shape (pname : String) (st : EmpIndex × List DiagEvent) (row : EmpRow) :
    (p1Step pname st row).1 = st.1 ∨ ∃ k v, (p1Step pname st row).1 = setIndex st.1 k v := by
  unfold p1Step
  cases readCivilId (jsOr (lookupProp row.props pname) (lookupProp row.props "رقم الهوية")) with
  | none => exact Or.inl rfl
  | some civil => exact Or.inr ⟨civil, row.id, rfl⟩

theorem fetchStep_shape (st : EmpIndex × List DiagEvent) (row : EmpRow) :
    (fetchStep st row).1 = st.1 ∨ ∃ k v, (fetchStep st row).1 = setIndex st.1 k v := by
  unfold fetchStep
  cases extractIdNumber row.props with
  | none => exact Or.inl rfl
  | some rid =>
    dsimp only
    by_cases hr : rid.isEmpty
    · rw [if_pos hr]; exact Or.inl rfl
    · rw [if_neg hr]
      exact Or.inr ⟨normalizeNumber (.vStr rid), row.id, rfl⟩

theorem lookupIndex_setIndex_self (idx : EmpIndex) (k : List Char) (v : String) :
    lookupIndex (setIndex idx k v) k = some v := by
  induction idx with
  | nil => simp [setIndex, lookupIndex]
  | cons p rest ih =>
    by_cases hp : p.1 = k
    · simp [setIndex, hp, lookupIndex]
    · simp only [setIndex, if_neg hp]
      simpa [lookupIndex, List.find?_cons, hp] using ih

/-- The two employee rows sharing the canonical key "123456789". -/
def c8Rows : List EmpRow :=
  [⟨"emp-1", [("رقم الهوية", .richTextP ["123456789".data])]⟩,
   ⟨"emp-2", [("رقم الهوية", .richTextP ["123456789".data])]⟩]

/-- C8 counterexample: two employees share a canonical key; part_001
    `buildEmployeeIndex` keeps only the later one and emits NO diagnostic
    whatsoever, and sync.js `fetchEmployees` prints only the generic
    added-employee line for each — no collision diagnostic is produced. -/
theorem C8_counterexample :
    (buildEmployeeIndexP1 "رقم الهوية" c8Rows).1 = [("123456789".data, "emp-2")] ∧
    (buildEmployeeIndexP1 "رقم الهوية" c8Rows).2 = [] ∧
    (fetchEmployeesRun c8Rows).2 =
      [.addedEmp "123456789".data, .addedEmp "123456789".data] ∧
    (fetchEmployeesRun c8Rows).2.all (fun e => !isCollisionEvent e) = true := by
  refine ⟨by decide, by decide, by decide, by decide⟩

/-- C8 amended: the index invariant holds — at most one employee per
    canonical key (the key lists stay duplicate-free and a later insert
    overwrites, i.e. the later employee wins) — but no collision diagnostic
    exists: part_001's builder emits no event at all and sync.js's builder
    emits only generic added-employee events. -/
theorem C8_amended (pname : String) (rows : List EmpRow) (idx : EmpIndex)
    (k : List Char) (v : String) :
    (((buildEmployeeIndexP1 pname rows).1).map Prod.fst).Nodup ∧
    (buildEmployeeIndexP1 pname rows).2 = [] ∧
    (((fetchEmployeesRun rows).1).map Prod.fst).Nodup ∧
    (∀ e ∈ (fetchEmployeesRun rows).2, ∃ k2, e = .addedEmp k2) ∧
    lookupIndex (setIndex idx k v) k = some v := by
  refine ⟨?_, ?_, ?_, ?_, lookupIndex_setIndex_self idx k v⟩
  · exact foldl_index_nodup (p1Step pname) (p1Step_shape pname) rows ([], []) (by simp)
  · have hgen : ∀ (rs : List EmpRow) (st : EmpIndex × List DiagEvent),
        (rs.foldl (p1Step pname) st).2 = st.2 := by
      intro rs
      induction rs with
      | nil => intro st; rfl
      | cons r rest ih =>
        intro st
        rw [List.foldl_cons]
        rw [ih]
        unfold p1Step
        cases readCivilId (jsOr (lookupProp r.props pname)
            (lookupProp r.props "رقم الهوية")) <;> rfl
    exact hgen rows ([], [])
  · exact foldl_index_nodup fetchStep fetchStep_shape rows ([], []) (by simp)
  · have hgen : ∀ (rs : List EmpRow) (st : EmpIndex × List DiagEvent),
        (∀ e ∈ st.2, ∃ k2, e = DiagEvent.addedEmp k2) →
        ∀ e ∈ (rs.foldl fetchStep st).2, ∃ k2, e = DiagEvent.addedEmp k2 := by
      intro rs
      induction rs with
      | nil => intro st h; exact h
      | cons r rest ih =>
        intro st h
        rw [List.foldl_cons]
        apply ih
        unfold fetchStep
        cases hx : extractIdNumber r.props with
        | none => exact h
        | some rid =>
          dsimp only
          by_cases hr : rid.isEmpty
          · rw [if_pos hr]; exact h
          · rw [if_neg hr]
            intro e he
            simp only [List.mem_append, List.mem_singleton] at he
            rcases he with he | he
            · exact h e he
            · exact ⟨normalizeNumber (.vStr rid), he⟩
    exact hgen rows ([], []) (by simp)

/-- Witness for C8_amended at the colliding rows. -/
theorem C8_amended_witness :
    (buildEmployeeIndexP1 "رقم الهوية" c8Rows).2 = [] ∧
    lookupIndex (setIndex [("123456789".data, "emp-1")] "123456789".data "emp-2")
      "123456789".data = some "emp-2" := by
  have h := C8_amended "رقم الهوية" c8Rows [("123456789".data, "emp-1")]
    "123456789".data "emp-2"
  exact ⟨h.2.1, h.2.2.2.2⟩


end NotionHR

